import Mathlib

/-!
# Macsim: a discrete-event simulation kernel

A shallow embedding of `random.c`, `macsim.c` and `batch-means.c` together
with the properties established for them.

Conventions of the embedding.

* C `long` and `long long` values are Lean integers.  The arithmetic of
  `macsim_random` stays inside 32 bits for every state below `2^31`.  The
  deadline sums of `macsim_schedule` and `macsim_schedule_ns` are formed by
  `long_long_add`, which wraps around modulo `2^64` as the compiled program
  does; the statistics counters of a station are added as integers.
* A `double` is an IEEE 754 binary64 value, the type `double`, with the
  operations rounded to nearest, ties to even; `macsim_schedule` uses it.
  `batch_mean` and `observacion` are embedded twice: over an ordered field,
  which is exact arithmetic, and over `double` (`batch_mean_double`,
  `observacion_double`).
* Process-wide variables become explicit state: the seed table is a list that
  is threaded through the generator, the clock and the event queue form the
  record `Kernel`.
* `fatal(...)` aborts the program; operations that may abort return
  `Except Failure _`.
-/

namespace Macsim

/-! ## random.c -/

/-- The prime modulus `2^31 - 1` (random.c, line 18). -/
def MODULO : Int := 2147483647

/-- First multiplier (random.c, line 19). -/
def MULT1 : Int := 24112

/-- Second multiplier (random.c, line 20). -/
def MULT2 : Int := 26143

/-- The seed table `inicial[]` (random.c, lines 24-42). -/
def inicial : List Int :=
  [         1,
   1973272912, 281629770,  20006270,1280689831,2096730329,1933576050,
    913566091, 246780520,1363774876, 604901985,1511192140,1259851944,
    824064364, 150493284, 242708531,  75253171,1964472944,1202299975,
    233217322,1911216000, 726370533, 403498145, 993232223,1103205531,
    762430696,1922803170,1385516923,  76271663, 413682397, 726466604,
    336157058,1432650381,1120463904, 595778810, 877722890,1046574445,
     68911991,2088367019, 748545416, 622401386,2122378830, 640690903,
   1774806513,2132545692,2079249579,  78130110, 852776735,1187867272,
   1351423507,1645973084,1997049139, 922510944,2045512870, 898585771,
    243649545,1004818771, 773686062, 403188473, 372279877,1901633463,
    498067494,2087759558, 493157915, 597104727,1530940798,1814496276,
    536444882,1663153658, 855503735,  67784357,1432404475, 619691088,
    119025595, 880802310, 176192644,1116780070, 277854671,1366580350,
   1142483975,2026948561,1053920743, 786262391,1792203830,1494667770,
   1923011392,1433700034,1244184613,1147297105, 539712780,1545929719,
    190641742,1645390429, 264907697, 620389253,1502074852, 927711160,
    364849192,2049576050, 638580085, 547070247 ]

/-- The state update of `macsim_random` (random.c, lines 54-63): the value
written back to `inicial[stream]` as a function of the value read from it. -/
def macsim_random_zi (zi : Int) : Int :=
  let lowprd := (Int.land zi 65535) * MULT1
  let hi31 := (zi >>> (16 : Nat)) * MULT1 + (lowprd >>> (16 : Nat))
  let zi := ((Int.land lowprd 65535) - MODULO) +
            ((Int.land hi31 32767) <<< (16 : Int)) + (hi31 >>> (15 : Nat))
  let zi := if zi < 0 then zi + MODULO else zi
  let lowprd := (Int.land zi 65535) * MULT2
  let hi31 := (zi >>> (16 : Nat)) * MULT2 + (lowprd >>> (16 : Nat))
  let zi := ((Int.land lowprd 65535) - MODULO) +
            ((Int.land hi31 32767) <<< (16 : Int)) + (hi31 >>> (15 : Nat))
  let zi := if zi < 0 then zi + MODULO else zi
  zi

/-- The integer `(zi >> 7 | 1)` whose quotient by `16777216.0` is returned
(random.c, line 65). -/
def macsim_random_mantissa (zi : Int) : Int :=
  Int.lor (zi >>> (7 : Nat)) 1

/-- The function `macsim_random` (random.c, lines 49-66) on an explicit seed
table: the returned number and the updated table.  An index outside the table
is undefined behaviour in C and yields `none`.  The quotient by `16777216.0`
is a rational: an integer below `2^53` divided by `2^24` is exact in a
`double`. -/
def macsim_random (tbl : List Int) (stream : Nat) : Option (ℚ × List Int) :=
  match tbl[stream]? with
  | none => none
  | some zi =>
    let zi := macsim_random_zi zi
    some ((macsim_random_mantissa zi : ℚ) / 16777216, tbl.set stream zi)

/-- The function `macsim_seed` (random.c, lines 70-73). -/
def macsim_seed (tbl : List Int) (seed : Int) (stream : Nat) : Option (List Int) :=
  if stream < tbl.length then some (tbl.set stream seed) else none

/-- The function `macsim_stream_value` (random.c, lines 77-80). -/
def macsim_stream_value (tbl : List Int) (stream : Nat) : Option Int :=
  tbl[stream]?

/-- The generator as the specification words it: one step of the
multiplicative congruential generator `x_n = 630360016 * x_{n-1} mod (2^31 - 1)`. -/
def lcg_step_spec (z : Int) : Int :=
  (630360016 * z) % (2 ^ 31 - 1)

/-- The number written by a list of binary digits, most significant first. -/
def bits_value (bits : List Bool) : Nat :=
  bits.foldl (fun e b => 2 * e + (if b then 1 else 0)) 0

/-- Square-and-multiply along the binary digits of an exponent, reduced modulo
`m` at every step: a way to evaluate a large power of the multiplier. -/
def pow_mod_bits (a m : Int) (bits : List Bool) : Int :=
  bits.foldl (fun acc b => if b then (acc * acc % m) * a % m else acc * acc % m) (1 % m)

/-! ## macsim.c -/

/-- Status code (macsim.h, line 16). -/
def MACSIM_UNKNOWN_STATION : Int := 0

/-- Status code (macsim.h, line 17). -/
def MACSIM_SUCCESS : Int := 1

/-- Status code (macsim.h, line 18). -/
def MACSIM_WAITING_STATION : Int := 2

/-- Status code (macsim.h, line 19). -/
def MACSIM_USING_STATION : Int := 3

/-- The record `struct macsim_event_t` (macsim.c, lines 17-20). -/
structure macsim_event_t where
  client : Int
  kind : Int
deriving DecidableEq, Repr

/-- The record `struct macsim_station_client_t` (macsim.c, lines 23-28). -/
structure macsim_station_client_t where
  id : Int
  station_entry_time : Int
  server_entry_time : Int
  event_kind : Int
deriving DecidableEq, Repr

/-- The record `struct macsim_station_t` (macsim.h, lines 22-29).  The list
`clients` is the queue, head first; the one-bit field `reschedule` is a
boolean. -/
structure macsim_station_t where
  name : String
  reschedule : Bool
  clients : List macsim_station_client_t
  total_service_time : Int
  total_response_time : Int
  total_clients : Int
deriving DecidableEq, Repr

/-- The ways an operation can stop the program: `fatal(...)` with its message,
or the use of a pointer that `linked_list_get` returned for an empty list. -/
inductive Failure where
  | fatal (msg : String)
  | null_dereference
deriving DecidableEq, Repr

/-- Modelled from the spec: the event heap (`heap.h` is not among the sources).
"A min-heap of `(deadline_ns, event)` pairs"; the pending pairs are kept in
insertion order. -/
abbrev heap_t := List (Int × macsim_event_t)

/-- Modelled from the spec: `heap_insert` adds one `(deadline_ns, event)` pair
to the heap. -/
def heap_insert (heap : heap_t) (time : Int) (event : macsim_event_t) : heap_t :=
  heap ++ [(time, event)]

/-- Modelled from the spec: `heap_extract` "pops the minimum-deadline event";
"ties break in an unspecified but deterministic manner (implementation may use
FIFO among equal deadlines)", here the earliest inserted.  The result is the
deadline, the event and the remaining heap; `none` is the heap error on an
empty heap. -/
def heap_extract : heap_t → Option (Int × macsim_event_t × heap_t)
  | [] => none
  | (t, e) :: rest =>
    match heap_extract rest with
    | none => some (t, e, [])
    | some (t', e', rest') =>
      if t ≤ t' then some (t, e, rest) else some (t', e', (t, e) :: rest')

/-- The variables of macsim.c (lines 33-38) that the modelled operations use:
the clock, the instant of the last reset, the event queue and the kind of the
event extracted last.  The station table is kept apart: the station operations
receive the station they act on. -/
structure Kernel where
  current_time : Int
  last_reset_time : Int
  event_queue : heap_t
  current_event : Int
deriving DecidableEq, Repr

/-- The function `macsim_init` (macsim.c, lines 49-56) at program start: the
static variables are zero and the event queue is created empty. -/
def macsim_init : Kernel :=
  { current_time := 0, last_reset_time := 0, event_queue := [], current_event := 0 }

/-- The largest `long long` value (limits.h). -/
def LLONG_MAX : Int := 9223372036854775807

/-- The smallest `long long` value (limits.h). -/
def LLONG_MIN : Int := -9223372036854775808

/-- The sum of two `long long` values as the compiled program forms it: a sum
of two `long long` values that lies above `LLONG_MAX` or below `LLONG_MIN`
wraps around modulo `2^64` (the overflow is undefined in C; the two's
complement addition of the machine wraps).  Operands that are no `long long`
values, which no variable of the program holds, are added as integers. -/
def long_long_add (a b : Int) : Int :=
  if LLONG_MAX < a + b ∧ a ≤ LLONG_MAX ∧ b ≤ LLONG_MAX then a + b - 18446744073709551616
  else if a + b < LLONG_MIN ∧ LLONG_MIN ≤ a ∧ LLONG_MIN ≤ b then a + b + 18446744073709551616
  else a + b

/-- A value of type `double` (IEEE 754 binary64): the finite value
`mantissa * 2^exponent`, an infinity with its sign, or a NaN.  The sign of a
zero is not kept.  The operations below return a finite value with
`|mantissa| <= 2^53` and `exponent >= -1074`. -/
inductive double where
  | finite (mantissa : Int) (exponent : Int)
  | infinity (negative : Bool)
  | nan
deriving DecidableEq, Repr

/-- The number of binary digits of `n`, counted with at most `fuel` halvings. -/
def bit_length_fuel : Nat → Nat → Nat
  | 0, _ => 0
  | fuel + 1, n => if n = 0 then 0 else bit_length_fuel fuel (n / 2) + 1

/-- The number of binary digits of `n`: the least `l` with `n < 2^l`. -/
def bit_length (n : Nat) : Nat :=
  bit_length_fuel n n

/-- Rounding of the exact value `m * 2^e` to a `double`, to nearest with ties
to even: the mantissa keeps 53 binary digits, fewer where the exponent would
fall below `-1074` (subnormal values), and a result of `2^1024` or more in
magnitude is an infinity. -/
def double_round (m e : Int) : double :=
  if m = 0 then .finite 0 0
  else
    let a : Nat := m.natAbs
    let s : Int := max ((bit_length a : Int) - 53) (-1074 - e)
    let q : Nat :=
      if s ≤ 0 then a
      else
        let q := a / 2 ^ s.toNat
        let r := a % 2 ^ s.toNat
        let half := 2 ^ (s.toNat - 1)
        if r > half ∨ (r = half ∧ q % 2 = 1) then q + 1 else q
    let e : Int := if s ≤ 0 then e else e + s
    if (bit_length q : Int) + e > 1024 then .infinity (decide (m < 0))
    else .finite (if m < 0 then -(q : Int) else (q : Int)) e

/-- The product of two `double` values: the exact product, rounded. -/
def double_mul : double → double → double
  | .finite m e, .finite m' e' => double_round (m * m') (e + e')
  | .finite m _, .infinity n => if m = 0 then .nan else .infinity (xor (decide (m < 0)) n)
  | .infinity n, .finite m _ => if m = 0 then .nan else .infinity (xor n (decide (m < 0)))
  | .infinity n, .infinity n' => .infinity (xor n n')
  | _, _ => .nan

/-- The comparison `x <= y` of two `double` values; it is false when one of
them is a NaN. -/
def double_le : double → double → Bool
  | .finite m e, .finite m' e' =>
    let e0 := min e e'
    decide (m * 2 ^ (e - e0).toNat ≤ m' * 2 ^ (e' - e0).toNat)
  | .finite _ _, .infinity n => !n
  | .infinity n, .finite _ _ => n
  | .infinity n, .infinity n' => n || !n'
  | _, _ => false

/-- Conversion of a `double` to `long long`, the cast `(long long) x`: the
fractional part is discarded.  For a NaN, an infinity and a value whose integer
part is no `long long` value the cast is undefined in C; the conversion
instruction of x86-64 (`cvttsd2si`) gives `LLONG_MIN` there. -/
def double_to_long_long : double → Int
  | .finite m e =>
    let t := if 0 ≤ e then m * 2 ^ e.toNat else Int.tdiv m (2 ^ (-e).toNat)
    if LLONG_MIN ≤ t ∧ t ≤ LLONG_MAX then t else LLONG_MIN
  | _ => LLONG_MIN

/-- The exact value of a finite `double` with the given mantissa and
exponent. -/
def double_value (m e : Int) : ℚ :=
  (m : ℚ) * (2 : ℚ) ^ e

/-- Conversion of a `long long` argument to a parameter of type `int`: the
value is reduced modulo `2^32` into the range of `int`. -/
def long_long_to_int (x : Int) : Int :=
  (x + 2147483648) % 4294967296 - 2147483648

/-- The delay in nanoseconds that `macsim_schedule` adds to the clock, the
expression `(long long) (ms * 1000000)` of macsim.c, line 107: the product is
formed in `double`, with the constant converted exactly, and then cast. -/
def macsim_schedule_delay (ms : double) : Int :=
  double_to_long_long (double_mul ms (.finite 1000000 0))

/-- The function `macsim_schedule` (macsim.c, lines 101-110). -/
def macsim_schedule (k : Kernel) (kind : Int) (client_id : Int) (ms : double) : Kernel :=
  let event : macsim_event_t := { client := client_id, kind := kind }
  { k with event_queue :=
      heap_insert k.event_queue (long_long_add k.current_time (macsim_schedule_delay ms)) event }

/-- The function `macsim_schedule_ns` (macsim.c, lines 115-124). -/
def macsim_schedule_ns (k : Kernel) (kind : Int) (client_id : Int) (ns : Int) : Kernel :=
  let event : macsim_event_t := { client := client_id, kind := kind }
  { k with event_queue := heap_insert k.event_queue (long_long_add k.current_time ns) event }

/-- The function `macsim_extract` (macsim.c, lines 128-140): the new state and
the values stored through `kind` and `client_id`. -/
def macsim_extract (k : Kernel) : Except Failure (Kernel × Int × Int) :=
  match heap_extract k.event_queue with
  | none => .error (.fatal "macsim_extract: heap error")
  | some (t, event, rest) =>
    .ok ({ k with current_time := t, event_queue := rest, current_event := event.kind },
         event.kind, event.client)

/-- The station record that `macsim_station_create` builds (macsim.c, lines
148-158): zeroed by `calloc`, with its name and an empty client list. -/
def macsim_station_new (name : String) : macsim_station_t :=
  { name := name, reschedule := false, clients := [],
    total_service_time := 0, total_response_time := 0, total_clients := 0 }

/-- The part of `macsim_station_request` that creates and enqueues a client
(macsim.c, lines 246-269; the same text is lines 304-327 of
`macsim_station_request2`). -/
def macsim_station_enqueue (k : Kernel) (station : macsim_station_t) (client_id : Int) :
    Int × macsim_station_t :=
  let client : macsim_station_client_t :=
    { id := client_id, station_entry_time := 0, server_entry_time := 0,
      event_kind := k.current_event }
  let client := { client with station_entry_time := k.current_time }
  if (station.clients ++ [client]).length > 1 then
    (MACSIM_WAITING_STATION, { station with clients := station.clients ++ [client] })
  else
    let client := { client with server_entry_time := k.current_time }
    (MACSIM_USING_STATION, { station with clients := station.clients ++ [client] })

/-- The function `macsim_station_request` (macsim.c, lines 227-270).  The
argument `station` is `none` for a null pointer.  The function reads the clock
and the current event and writes to the station only, so the result is the
returned code and the station. -/
def macsim_station_request (k : Kernel) (station : Option macsim_station_t)
    (client_id : Int) : Except Failure (Int × macsim_station_t) :=
  match station with
  | none => .error (.fatal "macsim_station_request: unknown station")
  | some station =>
    if station.reschedule then
      match station.clients with
      | [] => .error .null_dereference
      | client :: rest =>
        if client.id = client_id then
          .ok (MACSIM_USING_STATION,
               { station with
                 clients := { client with server_entry_time := k.current_time } :: rest,
                 reschedule := false })
        else
          .ok (macsim_station_enqueue k station client_id)
    else
      .ok (macsim_station_enqueue k station client_id)

/-- The function `macsim_station_leave` (macsim.c, lines 332-368).  The
parameter is declared `int client_id`: the value the caller passes is converted
to `int` before the body runs. -/
def macsim_station_leave (k : Kernel) (station : Option macsim_station_t)
    (client_id : Int) : Except Failure (Kernel × macsim_station_t) :=
  let client_id := long_long_to_int client_id
  match station with
  | none => .error (.fatal "macsim_station_leave: unknown station")
  | some station =>
    match station.clients with
    | [] => .error (.fatal "macsim_station_leave: empty station queue")
    | client :: rest =>
      if client.id ≠ client_id then
        .error (.fatal "macsim_station_leave: client id missmatch")
      else
        let (k, station) :=
          match rest with
          | [] => (k, { station with clients := rest })
          | next_client :: _ =>
            (macsim_schedule_ns k client.event_kind next_client.id 0,
             { station with clients := rest, reschedule := true })
        .ok (k, { station with
                  total_clients := station.total_clients + 1,
                  total_response_time :=
                    station.total_response_time + (k.current_time - client.station_entry_time),
                  total_service_time :=
                    station.total_service_time + (k.current_time - client.server_entry_time) })

/-- One call of the scheduling interface by a host program. -/
inductive macsim_call where
  | schedule (kind : Int) (client_id : Int) (ms : double)
  | schedule_ns (kind : Int) (client_id : Int) (ns : Int)
  | extract

/-- The delay in nanoseconds that a call made in the state `k` adds to the
clock, `ns` or `(long long) (ms * 1000000)`, is not negative, and the deadline
`current_time + delay` does not exceed `LLONG_MAX`. -/
def macsim_call.delay_in_range (k : Kernel) : macsim_call → Prop
  | .schedule _ _ ms =>
    0 ≤ macsim_schedule_delay ms ∧ k.current_time + macsim_schedule_delay ms ≤ LLONG_MAX
  | .schedule_ns _ _ ns => 0 ≤ ns ∧ k.current_time + ns ≤ LLONG_MAX
  | .extract => True

/-- The effect of one call on the kernel state. -/
def macsim_call.run (k : Kernel) : macsim_call → Except Failure Kernel
  | .schedule kind client_id ms => .ok (macsim_schedule k kind client_id ms)
  | .schedule_ns kind client_id ns => .ok (macsim_schedule_ns k kind client_id ns)
  | .extract =>
    match macsim_extract k with
    | .error e => .error e
    | .ok (k', _, _) => .ok k'

/-- The effect of a sequence of calls, made in order; it fails at the first
call that aborts. -/
def macsim_run (k : Kernel) : List macsim_call → Except Failure Kernel
  | [] => .ok k
  | c :: cs =>
    match c.run k with
    | .error e => .error e
    | .ok k' => macsim_run k' cs

/-- Every call of a sequence, made in the state the calls before it have
produced, has its delay in range (`macsim_call.delay_in_range`). -/
def macsim_delays_in_range (k : Kernel) : List macsim_call → Prop
  | [] => True
  | c :: cs =>
    c.delay_in_range k ∧
      match c.run k with
      | .error _ => True
      | .ok k' => macsim_delays_in_range k' cs

/-- Modelled from the spec: the station table (`hash-table.h` is not among the
sources), a "mapping name→station" with "unique, case-sensitive" keys, kept as
the list of its entries in insertion order. -/
abbrev hash_table_t := List (String × macsim_station_t)

/-- Modelled from the spec: `hash_table_get`, "get by name"; `none` is the null
pointer returned for a name that is not in the table. -/
def hash_table_get : hash_table_t → String → Option macsim_station_t
  | [], _ => none
  | (k, v) :: rest, key => if k = key then some v else hash_table_get rest key

/-- Modelled from the spec: `hash_table_insert` adds an entry under a name that
is not in the table and leaves the table alone otherwise. -/
def hash_table_insert (table : hash_table_t) (key : String) (value : macsim_station_t) :
    hash_table_t :=
  if (hash_table_get table key).isSome then table else table ++ [(key, value)]

/-- Modelled from the spec: `hash_table_remove` takes the entry of a name out
of the table and returns its station, or the null pointer when there is none. -/
def hash_table_remove (table : hash_table_t) (key : String) :
    Option macsim_station_t × hash_table_t :=
  (hash_table_get table key, table.filter (fun e => decide (e.1 ≠ key)))

/-- The function `macsim_station_create` (macsim.c, lines 147-168) on an
explicit station table: the returned pointer (`none` for `NULL`) and the
table. -/
def macsim_station_create (stations : hash_table_t) (name : String) :
    Option macsim_station_t × hash_table_t :=
  let station := macsim_station_new name
  if (hash_table_get stations name).isNone then
    (some station, hash_table_insert stations name station)
  else
    (none, stations)

/-- The function `macsim_station_delete` (macsim.c, lines 174-182): the
returned code and the table. -/
def macsim_station_delete (stations : hash_table_t) (name : String) : Int × hash_table_t :=
  match hash_table_remove stations name with
  | (none, stations) => (MACSIM_UNKNOWN_STATION, stations)
  | (some _, stations) => (MACSIM_SUCCESS, stations)

/-- The function `macsim_station_get` (macsim.c, lines 199-201). -/
def macsim_station_get (stations : hash_table_t) (name : String) : Option macsim_station_t :=
  hash_table_get stations name

/-- The function `macsim_reset_statistics` (macsim.c, lines 435-446): the loop
over every entry of the station table, then the assignment to
`last_reset_time`. -/
def macsim_reset_statistics (k : Kernel) (stations : hash_table_t) : Kernel × hash_table_t :=
  let stations := stations.map (fun e =>
    (e.1, { e.2 with total_clients := 0, total_response_time := 0, total_service_time := 0 }))
  ({ k with last_reset_time := k.current_time }, stations)

/-- One call of a station operation by a host program. -/
inductive macsim_station_call where
  | request (client_id : Int)
  | leave (client_id : Int)

/-- The test that sends `macsim_station_request` down its first branch (macsim.c,
lines 235-238): the flag is set and the head of the queue has the id. -/
def macsim_station_is_handoff (station : macsim_station_t) (client_id : Int) : Bool :=
  station.reschedule &&
    (match station.clients with
     | [] => false
     | client :: _ => decide (client.id = client_id))

/-- The effect of one station call made in kernel state `k`: the station
afterwards and the number of requests so far that enqueued a new client
record. -/
def macsim_station_call.run (k : Kernel) (station : macsim_station_t) (accepted : Nat) :
    macsim_station_call → Except Failure (macsim_station_t × Nat)
  | .request client_id =>
    match macsim_station_request k (some station) client_id with
    | .error e => .error e
    | .ok (_, station') =>
      .ok (station',
           if macsim_station_is_handoff station client_id then accepted else accepted + 1)
  | .leave client_id =>
    match macsim_station_leave k (some station) client_id with
    | .error e => .error e
    | .ok (_, station') => .ok (station', accepted)

/-- The effect of a sequence of station calls on one station, each made in the
kernel state paired with it (the clock and the current event may have changed
between two calls); it fails at the first call that aborts. -/
def macsim_station_run (station : macsim_station_t) (accepted : Nat) :
    List (Kernel × macsim_station_call) → Except Failure (macsim_station_t × Nat)
  | [] => .ok (station, accepted)
  | (k, c) :: cs =>
    match c.run k station accepted with
    | .error e => .error e
    | .ok (station', accepted') => macsim_station_run station' accepted' cs

/-- The part of `macsim_station_request2` after the handoff test (macsim.c,
lines 296-327): the scan of the queue for the client id, then the creation and
enqueuing of the client as in `macsim_station_request`. -/
def macsim_station_scan_enqueue (k : Kernel) (station : macsim_station_t) (client_id : Int) :
    Except Failure (Int × macsim_station_t) :=
  if station.clients.any (fun client => decide (client.id = client_id)) then
    .error (.fatal "macsim_station_request2: client already in queue")
  else
    .ok (macsim_station_enqueue k station client_id)

/-- The function `macsim_station_request2` (macsim.c, lines 276-328): the
returned code and the new state of the station stored under the name. -/
def macsim_station_request2 (k : Kernel) (stations : hash_table_t) (name : String)
    (client_id : Int) : Except Failure (Int × macsim_station_t) :=
  match macsim_station_get stations name with
  | none => .error (.fatal "macsim_station_request2: unknown station")
  | some station =>
    if station.reschedule then
      match station.clients with
      | [] => .error .null_dereference
      | client :: rest =>
        if client.id = client_id then
          .ok (MACSIM_USING_STATION,
               { station with
                 clients := { client with server_entry_time := k.current_time } :: rest,
                 reschedule := false })
        else
          macsim_station_scan_enqueue k station client_id
    else
      macsim_station_scan_enqueue k station client_id

/-- One call by a host program: a call of the scheduling interface, or a
station request or leave on the station the host passes. -/
inductive macsim_host_call where
  | kernel (c : macsim_call)
  | request (station : Option macsim_station_t) (client_id : Int)
  | leave (station : Option macsim_station_t) (client_id : Int)

/-- The delay of a host call made in the state `k`, if it has one, is in range
(`macsim_call.delay_in_range`); the delay that `macsim_station_leave` passes to
`macsim_schedule_ns` is the constant 0. -/
def macsim_host_call.delay_in_range (k : Kernel) : macsim_host_call → Prop
  | .kernel c => c.delay_in_range k
  | .request _ _ => True
  | .leave _ _ => True

/-- The effect of one host call on the kernel state. -/
def macsim_host_call.run (k : Kernel) : macsim_host_call → Except Failure Kernel
  | .kernel c => c.run k
  | .request station client_id =>
    match macsim_station_request k station client_id with
    | .error e => .error e
    | .ok _ => .ok k
  | .leave station client_id =>
    match macsim_station_leave k station client_id with
    | .error e => .error e
    | .ok (k', _) => .ok k'

/-- The effect of a sequence of host calls on the kernel state; it fails at the
first call that aborts. -/
def macsim_host_run (k : Kernel) : List macsim_host_call → Except Failure Kernel
  | [] => .ok k
  | c :: cs =>
    match c.run k with
    | .error e => .error e
    | .ok k' => macsim_host_run k' cs

/-- Every host call of a sequence, made in the state the calls before it have
produced, has its delay in range. -/
def macsim_host_delays_in_range (k : Kernel) : List macsim_host_call → Prop
  | [] => True
  | c :: cs =>
    c.delay_in_range k ∧
      match c.run k with
      | .error _ => True
      | .ok k' => macsim_host_delays_in_range k' cs

/-- The division of two `long long` values: the quotient truncated toward
zero, and `none` for a zero divisor, where C leaves the division undefined. -/
def long_long_div (a b : Int) : Option Int :=
  if b = 0 then none else some (Int.tdiv a b)

/-- The integer figures that `macsim_report` computes for one station (macsim.c,
lines 458-460): `serv`, `resp` and `queue`. -/
def macsim_report_station (station : macsim_station_t) : Option (Int × Int × Int) :=
  match long_long_div station.total_service_time station.total_clients with
  | none => none
  | some serv =>
    match long_long_div station.total_response_time station.total_clients with
    | none => none
    | some resp => some (serv, resp, resp - serv)

/-- The loop of `macsim_report` over the station table (macsim.c, lines
457-468): the name and the integer figures of every station, or `none` when a
division is undefined.  The throughput and the utilisation, computed in
`double`, and the printing are left out. -/
def macsim_report : hash_table_t → Option (List (String × Int × Int × Int))
  | [] => some []
  | e :: rest =>
    match macsim_report_station e.2 with
    | none => none
    | some row =>
      match macsim_report rest with
      | none => none
      | some rows => some ((e.2.name, row) :: rows)

/-! ## batch-means.c -/

/-- The variables of batch-means.c (lines 12-13).  The type `α` stands for
`double`: the arithmetic is that of an ordered field, without rounding. -/
structure batch_means_t (α : Type) where
  transitorio : Int
  num_batches : Int
  batch : Int
  obs : Int
  suma : α
  gransuma : α
  gransuma2 : α
  granmedia : α
  h : α
  precision : α
  nivel : α
deriving DecidableEq

/-- The variables of batch-means.c at program start: static storage is zero. -/
def batch_means_zero {α : Type} [LinearOrderedField α] : batch_means_t α :=
  { transitorio := 0, num_batches := 0, batch := 0, obs := 0, suma := 0, gransuma := 0,
    gransuma2 := 0, granmedia := 0, h := 0, precision := 0, nivel := 0 }

/-- The function `Z` (batch-means.c, lines 16-33).  The library functions
`sqrt` and `log` are parameters. -/
def Z {α : Type} [LinearOrderedField α] (sqrt log : α → α) (p : α) : α :=
  let q := if p > 0.5 then 1 - p else p
  let z1 := sqrt (-2.0 * log q)
  let n := (0.010328 * z1 + 0.802853) * z1 + 2.515517
  let d := ((0.001308 * z1 + 0.189269) * z1 + 1.43278) * z1 + 1
  let z1 := z1 - n / d
  if p > 0.5 then -z1 else z1

/-- The function `T` (batch-means.c, lines 36-55); the loop over `i = 3, 2, 1,
0` is written out. -/
def T {α : Type} [LinearOrderedField α] (sqrt log : α → α) (p : α) (ndf : Int) : α :=
  let x : α := 0.0
  let z1 := abs (Z sqrt log p)
  let z2 := z1 * z1
  let h0 := 0.25 * z1 * (z2 + 1.0)
  let h1 := 0.010416667 * z1 * ((5.0 * z2 + 16.0) * z2 + 3.0)
  let h2 := 0.002604167 * z1 * (((3.0 * z2 + 19.0) * z2 + 17.0) * z2 - 15.0)
  let h3 := 0.000010851 * z1 * ((((79.0 * z2 + 776.0) * z2 + 1482.0) * z2 - 1920.0) * z2 - 945.0)
  let x := (x + h3) / (ndf : α)
  let x := (x + h2) / (ndf : α)
  let x := (x + h1) / (ndf : α)
  let x := (x + h0) / (ndf : α)
  let z1 := z1 + x
  if p > 0.5 then -z1 else z1

/-- The function `batch_mean` (batch-means.c, lines 63-71). -/
def batch_mean {α : Type} [LinearOrderedField α] (s : batch_means_t α)
    (obs_trans tam_batch : Int) (precis nivelconf : α) : batch_means_t α :=
  { s with transitorio := obs_trans, batch := tam_batch, precision := precis,
           nivel := nivelconf, suma := 0, gransuma := 0, gransuma2 := 0,
           num_batches := 0, obs := 0 }

/-- The function `observacion` (batch-means.c, lines 75-106): the returned
value and the variables afterwards.  The diagnostic output is left out, and the
count passed to `T` is taken to fit its `int` parameter. -/
def observacion {α : Type} [LinearOrderedField α] (sqrt log : α → α) (s : batch_means_t α)
    (valor : α) : Int × batch_means_t α :=
  if s.transitorio ≠ 0 then
    (0, { s with transitorio := s.transitorio - 1 })
  else
    let s := { s with suma := s.suma + valor, obs := s.obs + 1 }
    if s.obs = s.batch then
      let media_batch := s.suma / (s.obs : α)
      let s := { s with gransuma := s.gransuma + media_batch,
                        gransuma2 := s.gransuma2 + media_batch * media_batch,
                        num_batches := s.num_batches + 1, suma := 0, obs := 0 }
      if s.num_batches ≥ 10 then
        let granmedia := s.gransuma / (s.num_batches : α)
        let var := (s.gransuma2 - (s.num_batches : α) * granmedia * granmedia) /
                   ((s.num_batches - 1 : Int) : α)
        let h := T sqrt log ((1 - s.nivel) / 2.0) (s.num_batches - 1) *
                 sqrt (var / (s.num_batches : α))
        let s := { s with granmedia := granmedia, h := h }
        (if h / granmedia ≤ s.precision then 1 else 0, s)
      else
        (0, s)
    else
      (0, s)

/-- The function `resultado` (batch-means.c, lines 110-115): the values stored
through `media`, `semi_intervalo` and `num_b`. -/
def resultado {α : Type} (s : batch_means_t α) : α × α × Int :=
  (s.granmedia, s.h, long_long_to_int s.num_batches)

/-- A run of `observacion` over a sequence of values, in order: the returned
values and the variables afterwards. -/
def observaciones {α : Type} [LinearOrderedField α] (sqrt log : α → α) (s : batch_means_t α) :
    List α → List Int × batch_means_t α
  | [] => ([], s)
  | valor :: rest =>
    let r := observacion sqrt log s valor
    let rs := observaciones sqrt log r.2 rest
    (r.1 :: rs.1, rs.2)

/-- The variables of batch-means.c while the constant `c` is fed, after the
transient: `q` batches are complete and `r` values of the next one are in. -/
def constant_stream_state {α : Type} [LinearOrderedField α] (s0 : batch_means_t α) (b : Nat)
    (prec nivel c : α) (q r : Nat) : batch_means_t α :=
  { transitorio := 0, num_batches := q, batch := b, obs := r, suma := (r : α) * c,
    gransuma := (q : α) * c, gransuma2 := (q : α) * (c * c), granmedia := s0.granmedia,
    h := s0.h, precision := prec, nivel := nivel }

/-- The value assigned to the local `var` of `observacion` (batch-means.c, line
93), read off the variables as they stand once the batch is closed and
`granmedia` is assigned. -/
def observacion_var {α : Type} [LinearOrderedField α] (s : batch_means_t α) : α :=
  (s.gransuma2 - (s.num_batches : α) * s.granmedia * s.granmedia) /
    ((s.num_batches - 1 : Int) : α)

/-- The means of a sequence of complete batches, as the specification has
them: the sum of each batch over its number of values. -/
def batch_means_spec {α : Type} [LinearOrderedField α] (batches : List (List α)) : List α :=
  batches.map (fun xs => xs.sum / (xs.length : α))

/-- The grand mean as the specification has it: the mean of the batch means. -/
def grand_mean_spec {α : Type} [LinearOrderedField α] (ms : List α) : α :=
  ms.sum / (ms.length : α)

/-- The unbiased sample variance of the batch means, as the specification has
it: the squared deviations from the grand mean, summed, over `K - 1`. -/
def sample_variance_spec {α : Type} [LinearOrderedField α] (ms : List α) : α :=
  (ms.map (fun m => (m - grand_mean_spec ms) ^ 2)).sum / ((ms.length : α) - 1)

/-- Every pending event is due at the current time or later. -/
def pending_not_before_clock (k : Kernel) : Prop :=
  ∀ x ∈ k.event_queue, k.current_time ≤ x.1

/-! ## Properties of random.c -/

theorem land_mask_eq_emod (x : Int) (hx : 0 ≤ x) (k : Nat) :
    Int.land x (((2 ^ k - 1 : Nat)) : Int) = x % ((2 ^ k : Nat) : Int) := by
  obtain ⟨n, rfl⟩ := Int.eq_ofNat_of_zero_le hx
  show ((n &&& (2 ^ k - 1) : Nat) : Int) = _
  rw [Nat.and_pow_two_sub_one_eq_mod]
  norm_cast

theorem land_65535 (x : Int) (hx : 0 ≤ x) : Int.land x 65535 = x % 65536 := by
  simpa using land_mask_eq_emod x hx 16

theorem land_32767 (x : Int) (hx : 0 ≤ x) : Int.land x 32767 = x % 32768 := by
  simpa using land_mask_eq_emod x hx 15

theorem shiftLeft_16 (x : Int) : x <<< (16 : Int) = x * 65536 := by
  simpa using Int.shiftLeft_eq_mul_pow x 16

theorem shiftRight_16 (x : Int) : x >>> (16 : Nat) = x / 65536 := by
  simpa using Int.shiftRight_eq_div_pow x 16

theorem shiftRight_15 (x : Int) : x >>> (15 : Nat) = x / 32768 := by
  simpa using Int.shiftRight_eq_div_pow x 15

theorem shiftRight_7 (x : Int) : x >>> (7 : Nat) = x / 128 := by
  simpa using Int.shiftRight_eq_div_pow x 7

/-- The first half of the update multiplies by `24112` modulo `2^31 - 1`. -/
theorem stage_mult1 (z : Int) (h0 : 0 ≤ z) (h1 : z < 2147483648) :
    (if (Int.land (Int.land z 65535 * 24112) 65535 - 2147483647) +
          (Int.land ((z >>> (16 : Nat)) * 24112 + ((Int.land z 65535 * 24112) >>> (16 : Nat)))
            32767) <<< (16 : Int) +
          (((z >>> (16 : Nat)) * 24112 + ((Int.land z 65535 * 24112) >>> (16 : Nat)))
            >>> (15 : Nat)) < 0
     then (Int.land (Int.land z 65535 * 24112) 65535 - 2147483647) +
          (Int.land ((z >>> (16 : Nat)) * 24112 + ((Int.land z 65535 * 24112) >>> (16 : Nat)))
            32767) <<< (16 : Int) +
          (((z >>> (16 : Nat)) * 24112 + ((Int.land z 65535 * 24112) >>> (16 : Nat)))
            >>> (15 : Nat)) + 2147483647
     else (Int.land (Int.land z 65535 * 24112) 65535 - 2147483647) +
          (Int.land ((z >>> (16 : Nat)) * 24112 + ((Int.land z 65535 * 24112) >>> (16 : Nat)))
            32767) <<< (16 : Int) +
          (((z >>> (16 : Nat)) * 24112 + ((Int.land z 65535 * 24112) >>> (16 : Nat)))
            >>> (15 : Nat))) = (24112 * z) % 2147483647 := by
  have e1 : Int.land z 65535 = z % 65536 := land_65535 z h0
  have hl : 0 ≤ (z % 65536) * 24112 := by omega
  have hh : 0 ≤ (z / 65536) * 24112 + ((z % 65536) * 24112) / 65536 := by omega
  simp only [e1, land_65535 _ hl, shiftRight_16, shiftRight_15, land_32767 _ hh, shiftLeft_16]
  split_ifs <;> omega

/-- The second half of the update multiplies by `26143` modulo `2^31 - 1`. -/
theorem stage_mult2 (z : Int) (h0 : 0 ≤ z) (h1 : z < 2147483648) :
    (if (Int.land (Int.land z 65535 * 26143) 65535 - 2147483647) +
          (Int.land ((z >>> (16 : Nat)) * 26143 + ((Int.land z 65535 * 26143) >>> (16 : Nat)))
            32767) <<< (16 : Int) +
          (((z >>> (16 : Nat)) * 26143 + ((Int.land z 65535 * 26143) >>> (16 : Nat)))
            >>> (15 : Nat)) < 0
     then (Int.land (Int.land z 65535 * 26143) 65535 - 2147483647) +
          (Int.land ((z >>> (16 : Nat)) * 26143 + ((Int.land z 65535 * 26143) >>> (16 : Nat)))
            32767) <<< (16 : Int) +
          (((z >>> (16 : Nat)) * 26143 + ((Int.land z 65535 * 26143) >>> (16 : Nat)))
            >>> (15 : Nat)) + 2147483647
     else (Int.land (Int.land z 65535 * 26143) 65535 - 2147483647) +
          (Int.land ((z >>> (16 : Nat)) * 26143 + ((Int.land z 65535 * 26143) >>> (16 : Nat)))
            32767) <<< (16 : Int) +
          (((z >>> (16 : Nat)) * 26143 + ((Int.land z 65535 * 26143) >>> (16 : Nat)))
            >>> (15 : Nat))) = (26143 * z) % 2147483647 := by
  have e1 : Int.land z 65535 = z % 65536 := land_65535 z h0
  have hl : 0 ≤ (z % 65536) * 26143 := by omega
  have hh : 0 ≤ (z / 65536) * 26143 + ((z % 65536) * 26143) / 65536 := by omega
  simp only [e1, land_65535 _ hl, shiftRight_16, shiftRight_15, land_32767 _ hh, shiftLeft_16]
  split_ifs <;> omega

/-- On every state `0 ≤ z < 2^31` the split-multiplier update is the single
multiplication by `630360016` modulo `2^31 - 1`. -/
theorem macsim_random_zi_eq (z : Int) (h0 : 0 ≤ z) (h1 : z < 2147483648) :
    macsim_random_zi z = (630360016 * z) % 2147483647 := by
  have s1 := stage_mult1 z h0 h1
  have b1 : 0 ≤ (24112 * z) % 2147483647 := by omega
  have b2 : (24112 * z) % 2147483647 < 2147483648 := by omega
  have s2 := stage_mult2 _ b1 b2
  simp only [macsim_random_zi, MULT1, MULT2, MODULO]
  rw [s1, s2]
  omega

theorem nat_lor_one (n : Nat) : n ||| 1 = 2 * (n / 2) + 1 := by
  have h := Nat.div_add_mod (n ||| 1) 2
  have h1 : (n ||| 1) % 2 = 1 := Nat.or_mod_two_eq_one.2 (Or.inr rfl)
  rw [Nat.or_div_two, h1] at h
  simp at h
  omega

theorem int_lor_one (x : Int) (hx : 0 ≤ x) : Int.lor x 1 = 2 * (x / 2) + 1 := by
  obtain ⟨n, rfl⟩ := Int.eq_ofNat_of_zero_le hx
  show ((n ||| 1 : Nat) : Int) = _
  rw [nat_lor_one]
  push_cast
  rfl

/-- The mantissa of a state `0 ≤ z < 2^31` is an odd integer between `1` and
`2^24 - 1`. -/
theorem macsim_random_mantissa_bounds (z : Int) (h0 : 0 ≤ z) (h1 : z < 2147483648) :
    macsim_random_mantissa z % 2 = 1 ∧ 1 ≤ macsim_random_mantissa z ∧
      macsim_random_mantissa z ≤ 16777215 := by
  have hq : 0 ≤ z / 128 := by omega
  simp only [macsim_random_mantissa, shiftRight_7, int_lor_one _ hq]
  omega

/-- Iterating the update `n` times multiplies by `630360016 ^ n` modulo
`2^31 - 1`. -/
theorem macsim_random_zi_iterate (n : Nat) (z : Int) (h0 : 0 ≤ z) (h1 : z < 2147483647) :
    Nat.iterate macsim_random_zi n z = (630360016 ^ n * z) % 2147483647 := by
  induction n generalizing z with
  | zero =>
    simp only [Function.iterate_zero, id_eq, pow_zero, one_mul]
    omega
  | succ n ih =>
    rw [Function.iterate_succ_apply, macsim_random_zi_eq z h0 (by omega),
      ih _ (by omega) (by omega), Int.mul_emod, Int.emod_emod_of_dvd _ (dvd_refl _),
      ← Int.mul_emod, pow_succ, mul_assoc]

theorem pow_mod_bits_aux (a m : Int) (bits : List Bool) (acc : Int) (e : Nat)
    (h : acc = a ^ e % m) :
    bits.foldl (fun acc b => if b then (acc * acc % m) * a % m else acc * acc % m) acc =
      a ^ (bits.foldl (fun e b => 2 * e + (if b then 1 else 0)) e) % m := by
  induction bits generalizing acc e with
  | nil => simpa using h
  | cons b bs ih =>
    simp only [List.foldl_cons]
    apply ih
    have hsq : acc * acc % m = a ^ (2 * e) % m := by
      rw [h, ← Int.mul_emod, two_mul, pow_add]
    cases b with
    | false => simpa using hsq
    | true =>
      simp only [if_true]
      rw [hsq, pow_succ, Int.mul_emod (a ^ (2 * e)) a, Int.mul_emod (a ^ (2 * e) % m) a,
        Int.emod_emod_of_dvd _ (dvd_refl m)]

/-- Square-and-multiply computes the power modulo `m`. -/
theorem pow_mod_bits_eq (a m : Int) (bits : List Bool) :
    pow_mod_bits a m bits = a ^ bits_value bits % m :=
  pow_mod_bits_aux a m bits (1 % m) 0 (by simp)

/-- The multiplier of one million steps. -/
theorem multiplier_pow_1000000 : (630360016 : Int) ^ 1000000 % 2147483647 = 1646263304 := by
  have hb : bits_value [true, true, true, true, false, true, false, false, false, false,
      true, false, false, true, false, false, false, false, false, false] = 1000000 := by decide
  rw [← hb, ← pow_mod_bits_eq]
  decide

/-- The multiplier of one hundred thousand steps. -/
theorem multiplier_pow_100000 : (630360016 : Int) ^ 100000 % 2147483647 = 1047710950 := by
  have hb : bits_value [true, true, false, false, false, false, true, true, false, true,
      false, true, false, false, false, false, false] = 100000 := by decide
  rw [← hb, ← pow_mod_bits_eq]
  decide

/-- C1: after `macsim_seed(z, s)` with `1 ≤ z ≤ 2^31 - 2`, one call of
`macsim_random(s)` returns and leaves `macsim_stream_value(s)` equal to the
single-multiplier step `(630360016 * z) mod (2^31 - 1)`. -/
theorem macsim_random_refines_lcg (tbl : List Int) (s : Nat) (z : Int)
    (hs : s < tbl.length) (h1 : 1 ≤ z) (h2 : z ≤ 2 ^ 31 - 2) :
    ∃ tbl1 u tbl2, macsim_seed tbl z s = some tbl1 ∧
      macsim_random tbl1 s = some (u, tbl2) ∧
      macsim_stream_value tbl2 s = some (lcg_step_spec z) := by
  have hz : macsim_random_zi z = lcg_step_spec z := by
    rw [macsim_random_zi_eq z (by omega) (by omega)]
    rfl
  refine ⟨tbl.set s z, (macsim_random_mantissa (macsim_random_zi z) : ℚ) / 16777216,
    (tbl.set s z).set s (macsim_random_zi z), ?_, ?_, ?_⟩
  · simp [macsim_seed, hs]
  · simp only [macsim_random]
    rw [List.getElem?_set_self hs]
  · simp only [macsim_stream_value]
    rw [List.getElem?_set_self (by simpa using hs), hz]

/-- Witness for C1 on the initial table: stream 1, seed `1973272912`. -/
theorem macsim_random_refines_lcg_witness :
    ∃ tbl1 u tbl2, macsim_seed inicial 1973272912 1 = some tbl1 ∧
      macsim_random tbl1 1 = some (u, tbl2) ∧
      macsim_stream_value tbl2 1 = some (lcg_step_spec 1973272912) :=
  macsim_random_refines_lcg inicial 1 1973272912 (by decide) (by decide) (by decide)

/-- C2: on a stream whose state `z` satisfies `1 ≤ z ≤ 2^31 - 2`,
`macsim_random` returns `k / 2^24` where `k = (z' >> 7) | 1` for the new
state `z'`, `k` is odd and `1 ≤ k ≤ 2^24 - 1`; the returned value lies strictly
between 0 and 1. -/
theorem macsim_random_value (tbl : List Int) (s : Nat) (z : Int)
    (hz : tbl[s]? = some z) (h1 : 1 ≤ z) (h2 : z ≤ 2 ^ 31 - 2) :
    ∃ u tbl2 z2 k, macsim_random tbl s = some (u, tbl2) ∧
      macsim_stream_value tbl2 s = some z2 ∧
      k = Int.lor (z2 >>> (7 : Nat)) 1 ∧ u = (k : ℚ) / 2 ^ 24 ∧
      k % 2 = 1 ∧ 1 ≤ k ∧ k ≤ 2 ^ 24 - 1 ∧ 0 < u ∧ u < 1 := by
  have hs : s < tbl.length := by
    rcases Nat.lt_or_ge s tbl.length with h | h
    · exact h
    · rw [List.getElem?_eq_none h] at hz
      exact absurd hz (by simp)
  have e := macsim_random_zi_eq z (by omega) (by omega)
  have b0 : 0 ≤ macsim_random_zi z := by omega
  have b1 : macsim_random_zi z < 2147483648 := by omega
  obtain ⟨hodd, hlo, hhi⟩ := macsim_random_mantissa_bounds _ b0 b1
  refine ⟨(macsim_random_mantissa (macsim_random_zi z) : ℚ) / 16777216,
    tbl.set s (macsim_random_zi z), macsim_random_zi z,
    macsim_random_mantissa (macsim_random_zi z), ?_, ?_, rfl, ?_, hodd, hlo, ?_, ?_, ?_⟩
  · simp only [macsim_random, hz]
  · simp only [macsim_stream_value]
    rw [List.getElem?_set_self hs]
  · norm_num
  · norm_num
    exact hhi
  · have : (0 : ℚ) < (macsim_random_mantissa (macsim_random_zi z) : ℚ) := by
      exact_mod_cast (by omega : 0 < macsim_random_mantissa (macsim_random_zi z))
    positivity
  · have : (macsim_random_mantissa (macsim_random_zi z) : ℚ) ≤ 16777215 := by
      exact_mod_cast hhi
    rw [div_lt_one (by norm_num)]
    linarith

/-- Witness for C2 on the initial table: stream 1 holds `1973272912`. -/
theorem macsim_random_value_witness :
    ∃ u tbl2 z2 k, macsim_random inicial 1 = some (u, tbl2) ∧
      macsim_stream_value tbl2 1 = some z2 ∧
      k = Int.lor (z2 >>> (7 : Nat)) 1 ∧ u = (k : ℚ) / 2 ^ 24 ∧
      k % 2 = 1 ∧ 1 ≤ k ∧ k ≤ 2 ^ 24 - 1 ∧ 0 < u ∧ u < 1 :=
  macsim_random_value inicial 1 1973272912 (by decide) (by decide) (by decide)

/-- C3: the table has 101 entries; one million updates starting from
`inicial[1]` give `1511192140`, which is `inicial[11]` and not `inicial[2]`;
the entries `inicial[1]` to `inicial[100]` are each one hundred thousand
updates after the previous one. -/
theorem inicial_spacing :
    inicial.length = 101 ∧
    Nat.iterate macsim_random_zi 1000000 (inicial.getD 1 0) = 1511192140 ∧
    inicial.getD 11 0 = 1511192140 ∧ inicial.getD 2 0 = 281629770 ∧
    ((inicial.drop 1).dropLast).map (Nat.iterate macsim_random_zi 100000) = inicial.drop 2 := by
  refine ⟨by decide, ?_, by decide, by decide, ?_⟩
  · have h : inicial.getD 1 0 = 1973272912 := by decide
    rw [h, macsim_random_zi_iterate _ _ (by decide) (by decide), Int.mul_emod,
      multiplier_pow_1000000]
    decide
  · have hb : ∀ z ∈ (inicial.drop 1).dropLast, 0 ≤ z ∧ z < 2147483647 := by decide
    have hm : ((inicial.drop 1).dropLast).map (Nat.iterate macsim_random_zi 100000)
        = ((inicial.drop 1).dropLast).map (fun z => (1047710950 * z) % 2147483647) := by
      apply List.map_congr_left
      intro z hz
      obtain ⟨h0, h1⟩ := hb z hz
      rw [macsim_random_zi_iterate _ _ h0 h1, Int.mul_emod, multiplier_pow_100000,
        Int.emod_eq_of_lt h0 h1]
    rw [hm]
    decide

/-! ## Properties of the event queue -/

theorem long_long_add_of_in_range (a b : Int) (h1 : LLONG_MIN ≤ a + b)
    (h2 : a + b ≤ LLONG_MAX) : long_long_add a b = a + b := by
  unfold long_long_add
  unfold LLONG_MIN at *
  unfold LLONG_MAX at *
  split_ifs <;> omega

theorem long_long_add_of_nonneg (a b : Int) (hb : 0 ≤ b) (h : a + b ≤ LLONG_MAX) :
    long_long_add a b = a + b := by
  unfold long_long_add
  unfold LLONG_MIN
  unfold LLONG_MAX at *
  split_ifs <;> omega

theorem long_long_add_zero (a : Int) : long_long_add a 0 = a := by
  unfold long_long_add LLONG_MIN LLONG_MAX
  split_ifs <;> omega

/-- On `long long` operands `long_long_add` is the two's complement sum: the
sum reduced modulo `2^64` into the range of `long long`. -/
theorem long_long_add_eq_wrap (a b : Int) (ha1 : LLONG_MIN ≤ a) (ha2 : a ≤ LLONG_MAX)
    (hb1 : LLONG_MIN ≤ b) (hb2 : b ≤ LLONG_MAX) :
    long_long_add a b =
      (a + b + 9223372036854775808) % 18446744073709551616 - 9223372036854775808 := by
  unfold long_long_add
  unfold LLONG_MIN LLONG_MAX at *
  split_ifs <;> omega

theorem bit_length_fuel_lt (fuel n l : Nat) (hf : n ≤ fuel) :
    bit_length_fuel fuel n ≤ l ↔ n < 2 ^ l := by
  induction fuel generalizing n l with
  | zero =>
    have hn : n = 0 := by omega
    subst hn
    simp [bit_length_fuel]
  | succ fuel ih =>
    simp only [bit_length_fuel]
    split_ifs with h0
    · subst h0
      simp
    · cases l with
      | zero =>
        simp only [Nat.le_zero_eq, Nat.add_eq_zero, one_ne_zero, and_false, pow_zero,
          Nat.lt_one_iff, false_iff]
        exact h0
      | succ l =>
        have hlt : n / 2 ≤ fuel := by omega
        rw [Nat.add_le_add_iff_right, ih (n / 2) l hlt, pow_succ]
        omega

theorem bit_length_le_iff (n l : Nat) : bit_length n ≤ l ↔ n < 2 ^ l :=
  bit_length_fuel_lt n n l (le_refl n)

/-- A non-empty heap yields an event. -/
theorem heap_extract_isSome (heap : heap_t) (h : heap ≠ []) :
    (heap_extract heap).isSome = true := by
  cases heap with
  | nil => exact absurd rfl h
  | cons x xs =>
    obtain ⟨tx, ex⟩ := x
    simp only [heap_extract]
    cases heap_extract xs with
    | none => rfl
    | some r =>
      obtain ⟨t1, e1, r1⟩ := r
      simp only
      split_ifs <;> rfl

/-- What `heap_extract` returns, put back in front of what it leaves, is a
rearrangement of the heap. -/
theorem heap_extract_perm (heap : heap_t) (t : Int) (e : macsim_event_t) (rest : heap_t)
    (h : heap_extract heap = some (t, e, rest)) : List.Perm heap ((t, e) :: rest) := by
  induction heap generalizing t e rest with
  | nil => simp [heap_extract] at h
  | cons x xs ih =>
    obtain ⟨tx, ex⟩ := x
    simp only [heap_extract] at h
    cases hx : heap_extract xs with
    | none =>
      rw [hx] at h
      cases xs with
      | nil =>
        simp only [Option.some.injEq, Prod.mk.injEq] at h
        obtain ⟨rfl, rfl, rfl⟩ := h
        exact List.Perm.refl _
      | cons y ys =>
        have hs := heap_extract_isSome (y :: ys) (List.cons_ne_nil y ys)
        rw [hx] at hs
        exact absurd hs (by simp)
    | some r =>
      obtain ⟨t1, e1, r1⟩ := r
      rw [hx] at h
      have ih1 := ih t1 e1 r1 hx
      simp only at h
      split_ifs at h with hle
      · simp only [Option.some.injEq, Prod.mk.injEq] at h
        obtain ⟨rfl, rfl, rfl⟩ := h
        exact List.Perm.refl _
      · simp only [Option.some.injEq, Prod.mk.injEq] at h
        obtain ⟨rfl, rfl, rfl⟩ := h
        exact (List.Perm.cons _ ih1).trans (List.Perm.swap _ _ _)

/-- The deadline that `heap_extract` returns is the smallest in the heap. -/
theorem heap_extract_le (heap : heap_t) (t : Int) (e : macsim_event_t) (rest : heap_t)
    (h : heap_extract heap = some (t, e, rest)) : ∀ x ∈ heap, t ≤ x.1 := by
  induction heap generalizing t e rest with
  | nil => simp [heap_extract] at h
  | cons x xs ih =>
    obtain ⟨tx, ex⟩ := x
    simp only [heap_extract] at h
    cases hx : heap_extract xs with
    | none =>
      rw [hx] at h
      cases xs with
      | nil =>
        simp only [Option.some.injEq, Prod.mk.injEq] at h
        obtain ⟨rfl, rfl, rfl⟩ := h
        intro y hy
        simp only [List.mem_singleton] at hy
        subst hy
        exact le_refl _
      | cons y ys =>
        have hs := heap_extract_isSome (y :: ys) (List.cons_ne_nil y ys)
        rw [hx] at hs
        exact absurd hs (by simp)
    | some r =>
      obtain ⟨t1, e1, r1⟩ := r
      rw [hx] at h
      have ih1 := ih t1 e1 r1 hx
      simp only at h
      split_ifs at h with hle
      · simp only [Option.some.injEq, Prod.mk.injEq] at h
        obtain ⟨rfl, rfl, rfl⟩ := h
        intro y hy
        rcases List.mem_cons.1 hy with rfl | hy
        · exact le_refl _
        · exact le_trans hle (ih1 y hy)
      · simp only [Option.some.injEq, Prod.mk.injEq] at h
        obtain ⟨rfl, rfl, rfl⟩ := h
        intro y hy
        rcases List.mem_cons.1 hy with rfl | hy
        · exact le_of_lt (not_le.1 hle)
        · exact ih1 y hy

theorem macsim_init_pending : pending_not_before_clock macsim_init := by
  intro x hx
  simp [macsim_init] at hx

theorem macsim_schedule_ns_pending (k : Kernel) (kind client_id ns : Int) (hns : 0 ≤ ns)
    (hmax : k.current_time + ns ≤ LLONG_MAX) (hk : pending_not_before_clock k) :
    pending_not_before_clock (macsim_schedule_ns k kind client_id ns) := by
  intro x hx
  simp only [macsim_schedule_ns, heap_insert, List.mem_append, List.mem_singleton] at hx
  rcases hx with hx | rfl
  · exact hk x hx
  · show k.current_time ≤ long_long_add k.current_time ns
    rw [long_long_add_of_nonneg _ _ hns hmax]
    omega

theorem macsim_schedule_pending (k : Kernel) (kind client_id : Int) (ms : double)
    (hms : 0 ≤ macsim_schedule_delay ms)
    (hmax : k.current_time + macsim_schedule_delay ms ≤ LLONG_MAX)
    (hk : pending_not_before_clock k) :
    pending_not_before_clock (macsim_schedule k kind client_id ms) := by
  intro x hx
  simp only [macsim_schedule, heap_insert, List.mem_append, List.mem_singleton] at hx
  rcases hx with hx | rfl
  · exact hk x hx
  · show k.current_time ≤ long_long_add k.current_time (macsim_schedule_delay ms)
    rw [long_long_add_of_nonneg _ _ hms hmax]
    omega

/-- When no pending event is due before the current time, a successful
`macsim_extract` does not move the clock back and leaves a queue with the same
property. -/
theorem macsim_extract_pending (k k' : Kernel) (kind client_id : Int)
    (hk : pending_not_before_clock k)
    (he : macsim_extract k = .ok (k', kind, client_id)) :
    k.current_time ≤ k'.current_time ∧ pending_not_before_clock k' := by
  unfold macsim_extract at he
  cases hx : heap_extract k.event_queue with
  | none => rw [hx] at he; cases he
  | some r =>
    obtain ⟨t, e, rest⟩ := r
    rw [hx] at he
    simp only [Except.ok.injEq, Prod.mk.injEq] at he
    obtain ⟨rfl, -, -⟩ := he
    have hperm := heap_extract_perm _ _ _ _ hx
    have hle := heap_extract_le _ _ _ _ hx
    constructor
    · exact hk (t, e) (hperm.mem_iff.2 (List.mem_cons_self _ _))
    · intro y hy
      exact hle y (hperm.mem_iff.2 (List.mem_cons_of_mem _ hy))

/-- A sequence of calls whose delays are in range keeps every pending event at
or after the current time. -/
theorem macsim_run_pending (calls : List macsim_call) (k k' : Kernel)
    (hd : macsim_delays_in_range k calls) (hk : pending_not_before_clock k)
    (hr : macsim_run k calls = .ok k') : pending_not_before_clock k' := by
  induction calls generalizing k with
  | nil =>
    simp only [macsim_run, Except.ok.injEq] at hr
    exact hr ▸ hk
  | cons c cs ih =>
    simp only [macsim_delays_in_range] at hd
    obtain ⟨hc, hcs⟩ := hd
    simp only [macsim_run] at hr
    cases hrun : c.run k with
    | error err => rw [hrun] at hr; cases hr
    | ok k1 =>
      rw [hrun] at hr hcs
      refine ih k1 hcs ?_ hr
      cases c with
      | schedule kind client_id ms =>
        simp only [macsim_call.run, Except.ok.injEq] at hrun
        subst hrun
        exact macsim_schedule_pending k kind client_id ms hc.1 hc.2 hk
      | schedule_ns kind client_id ns =>
        simp only [macsim_call.run, Except.ok.injEq] at hrun
        subst hrun
        exact macsim_schedule_ns_pending k kind client_id ns hc.1 hc.2 hk
      | extract =>
        simp only [macsim_call.run] at hrun
        cases he : macsim_extract k with
        | error err => rw [he] at hrun; cases hrun
        | ok r =>
          obtain ⟨k2, kind, cid⟩ := r
          rw [he] at hrun
          simp only [Except.ok.injEq] at hrun
          subst hrun
          exact (macsim_extract_pending k k2 kind cid hk he).2

/-- C4, as stated, fails in three ways.  After `macsim_schedule_ns(1, 1, -5)` on
the initialised kernel, `macsim_extract` succeeds and moves the clock from 0
back to -5.  With delays that are not negative: once the clock stands at
`LLONG_MAX`, the deadline of `macsim_schedule_ns(2, 2, 1)` wraps around to
`LLONG_MIN` and the next extraction moves the clock back to it; and for
`macsim_schedule(1, 1, 1e13)` the product `1e19` is no `long long` value, the
cast gives `LLONG_MIN`, and the extraction moves the clock from 0 back to it. -/
theorem macsim_extract_clock_backwards :
    (∃ k k', macsim_run macsim_init [macsim_call.schedule_ns 1 1 (-5)] = .ok k ∧
      macsim_extract k = .ok (k', 1, 1) ∧ k.current_time = 0 ∧ k'.current_time = -5 ∧
      ¬ (k.current_time ≤ k'.current_time)) ∧
    (macsim_run macsim_init
        [macsim_call.schedule_ns 1 1 9223372036854775807, macsim_call.extract,
         macsim_call.schedule_ns 2 2 1] =
      .ok ⟨9223372036854775807, 0, [(-9223372036854775808, ⟨2, 2⟩)], 1⟩ ∧
     macsim_extract ⟨9223372036854775807, 0, [(-9223372036854775808, ⟨2, 2⟩)], 1⟩ =
      .ok (⟨-9223372036854775808, 0, [], 2⟩, 2, 2)) ∧
    (macsim_run macsim_init [macsim_call.schedule 1 1 (.finite 10000000000000 0)] =
      .ok ⟨0, 0, [(-9223372036854775808, ⟨1, 1⟩)], 0⟩ ∧
     macsim_extract ⟨0, 0, [(-9223372036854775808, ⟨1, 1⟩)], 0⟩ =
      .ok (⟨-9223372036854775808, 0, [], 1⟩, 1, 1)) :=
  ⟨⟨⟨0, 0, [(-5, ⟨1, 1⟩)], 0⟩, ⟨-5, 0, [], 1⟩, rfl, rfl, rfl, rfl, by decide⟩,
   ⟨rfl, rfl⟩, ⟨rfl, rfl⟩⟩

/-- C4, amended: for every sequence of `macsim_schedule`, `macsim_schedule_ns`
and `macsim_extract` calls from the initialised kernel in which every delay is
in range, that is the nanoseconds a call adds to the clock, `ns` or `(long
long) (ms * 1000000)`, are not negative and `current_time + delay` does not
exceed `LLONG_MAX`, a successful `macsim_extract` sets `current_time` to a
value greater than or equal to its value before the call. -/
theorem macsim_extract_monotone (calls : List macsim_call) (k k' : Kernel)
    (kind client_id : Int) (hd : macsim_delays_in_range macsim_init calls)
    (hr : macsim_run macsim_init calls = .ok k)
    (he : macsim_extract k = .ok (k', kind, client_id)) :
    k.current_time ≤ k'.current_time :=
  (macsim_extract_pending k k' kind client_id
    (macsim_run_pending calls macsim_init k hd macsim_init_pending hr) he).1

/-- Witness for C4: an event is scheduled 7 ms ahead and one 3 ns ahead, and one
is extracted; the next extraction moves the clock from 3 to 7000000. -/
theorem macsim_extract_monotone_witness :
    macsim_delays_in_range macsim_init
      [macsim_call.schedule 1 10 (.finite 7 0), macsim_call.schedule_ns 2 20 3,
       macsim_call.extract] ∧
    macsim_run macsim_init
        [macsim_call.schedule 1 10 (.finite 7 0), macsim_call.schedule_ns 2 20 3,
         macsim_call.extract]
      = .ok ⟨3, 0, [(7000000, ⟨10, 1⟩)], 2⟩ ∧
    macsim_extract ⟨3, 0, [(7000000, ⟨10, 1⟩)], 2⟩ = .ok (⟨7000000, 0, [], 1⟩, 1, 10) ∧
    (⟨3, 0, [(7000000, ⟨10, 1⟩)], 2⟩ : Kernel).current_time ≤
      (⟨7000000, 0, [], 1⟩ : Kernel).current_time :=
  have hd : macsim_delays_in_range macsim_init
      [macsim_call.schedule 1 10 (.finite 7 0), macsim_call.schedule_ns 2 20 3,
       macsim_call.extract] :=
    ⟨⟨by decide, by decide⟩, ⟨by decide, by decide⟩, trivial, trivial⟩
  ⟨hd, rfl, rfl,
   macsim_extract_monotone
    [macsim_call.schedule 1 10 (.finite 7 0), macsim_call.schedule_ns 2 20 3,
     macsim_call.extract]
    ⟨3, 0, [(7000000, ⟨10, 1⟩)], 2⟩ ⟨7000000, 0, [], 1⟩ 1 10 hd rfl rfl⟩

/-- The integer that the cast computes from a finite `double` is its value
with the fractional part discarded. -/
theorem double_truncate_eq (m e : Int) :
    (if 0 ≤ e then m * 2 ^ e.toNat else Int.tdiv m (2 ^ (-e).toNat)) =
      if 0 ≤ double_value m e then ⌊double_value m e⌋ else ⌈double_value m e⌉ := by
  by_cases he : 0 ≤ e
  · obtain ⟨n, rfl⟩ := Int.eq_ofNat_of_zero_le he
    have hv : double_value m (n : Int) = ((m * 2 ^ n : Int) : ℚ) := by
      simp [double_value]
    simp only [he, if_true, Int.toNat_ofNat, hv, Int.floor_intCast, Int.ceil_intCast, ite_self]
  · have hn : e = -((-e).toNat : Int) := by omega
    generalize (-e).toNat = n at hn
    subst hn
    have hv : double_value m (-(n : Int)) = (m : ℚ) / ((2 ^ n : Nat) : ℚ) := by
      simp [double_value, zpow_neg, div_eq_mul_inv]
    have hpos : (0 : ℚ) < ((2 ^ n : Nat) : ℚ) := by positivity
    have hposz : (0 : Int) < 2 ^ n := by positivity
    simp only [he, if_false, hv]
    by_cases hm : 0 ≤ m
    · have h0 : (0 : ℚ) ≤ (m : ℚ) / ((2 ^ n : Nat) : ℚ) :=
        div_nonneg (by exact_mod_cast hm) (le_of_lt hpos)
      rw [if_pos h0, Rat.floor_intCast_div_natCast, Int.tdiv_eq_ediv hm (le_of_lt hposz)]
      norm_cast
    · have hm' : m < 0 := not_le.1 hm
      have h0 : ¬ (0 : ℚ) ≤ (m : ℚ) / ((2 ^ n : Nat) : ℚ) := by
        rw [not_le]
        exact div_neg_of_neg_of_pos (by exact_mod_cast hm') hpos
      have hc : ⌈(m : ℚ) / ((2 ^ n : Nat) : ℚ)⌉ = -⌊((-m : Int) : ℚ) / ((2 ^ n : Nat) : ℚ)⌋ := by
        rw [Int.cast_neg, neg_div, Int.floor_neg, neg_neg]
      rw [if_neg h0, hc, Rat.floor_intCast_div_natCast]
      have e1 : Int.tdiv m (2 ^ n) = -Int.tdiv (-m) (2 ^ n) := by
        rw [Int.neg_tdiv, neg_neg]
      rw [e1, Int.tdiv_eq_ediv (by omega) (le_of_lt hposz)]
      norm_cast

/-- The cast of a finite `double`: its value with the fractional part
discarded when that is a `long long` value, and `LLONG_MIN` otherwise. -/
theorem double_to_long_long_eq (m e : Int) :
    double_to_long_long (.finite m e) =
      if -9223372036854775809 < double_value m e ∧ double_value m e < 9223372036854775808 then
        (if 0 ≤ double_value m e then ⌊double_value m e⌋ else ⌈double_value m e⌉)
      else LLONG_MIN := by
  simp only [double_to_long_long]
  rw [double_truncate_eq]
  have hiff : (LLONG_MIN ≤ (if 0 ≤ double_value m e then ⌊double_value m e⌋
        else ⌈double_value m e⌉) ∧
      (if 0 ≤ double_value m e then ⌊double_value m e⌋ else ⌈double_value m e⌉) ≤ LLONG_MAX) ↔
      (-9223372036854775809 < double_value m e ∧ double_value m e < 9223372036854775808) := by
    unfold LLONG_MIN LLONG_MAX
    by_cases h0 : 0 ≤ double_value m e
    · have h1 : (0 : Int) ≤ ⌊double_value m e⌋ := Int.floor_nonneg.2 h0
      have h2 : ⌊double_value m e⌋ < 9223372036854775808 ↔
          double_value m e < 9223372036854775808 := by
        rw [Int.floor_lt]
        norm_cast
      simp only [h0, if_true]
      constructor
      · intro h
        exact ⟨by linarith, h2.1 (by omega)⟩
      · intro h
        have := h2.2 h.2
        omega
    · have hneg : double_value m e < 0 := not_le.1 h0
      have h1 : ⌈double_value m e⌉ ≤ 0 := by
        rw [Int.ceil_le]
        exact_mod_cast le_of_lt hneg
      have h2 : -9223372036854775809 < ⌈double_value m e⌉ ↔
          -9223372036854775809 < double_value m e := by
        rw [Int.lt_ceil]
        norm_cast
      simp only [h0, if_false]
      constructor
      · intro h
        exact ⟨h2.1 (by omega), by linarith⟩
      · intro h
        have := h2.2 h.1
        omega
  by_cases hr : -9223372036854775809 < double_value m e ∧ double_value m e < 9223372036854775808
  · rw [if_pos hr, if_pos (hiff.2 hr)]
  · rw [if_neg hr, if_neg (fun h => hr (hiff.1 h))]

theorem double_to_long_long_finite (m e : Int)
    (hlo : -9223372036854775808 < double_value m e)
    (hhi : double_value m e < 9223372036854775808) :
    double_to_long_long (.finite m e) =
      if 0 ≤ double_value m e then ⌊double_value m e⌋ else ⌈double_value m e⌉ := by
  rw [double_to_long_long_eq, if_pos ⟨by linarith, hhi⟩]

theorem double_round_exact (m e : Int) (hm0 : m ≠ 0) (hm : m.natAbs < 2 ^ 53)
    (he : -1074 ≤ e) (hov : (bit_length m.natAbs : Int) + e ≤ 1024) :
    double_round m e = .finite m e := by
  have hl : bit_length m.natAbs ≤ 53 := (bit_length_le_iff _ _).2 hm
  have hs : max ((bit_length m.natAbs : Int) - 53) (-1074 - e) ≤ 0 := by
    apply max_le <;> omega
  have hno : ¬ ((bit_length m.natAbs : Int) + e > 1024) := by omega
  have hsgn : (if m < 0 then -(m.natAbs : Int) else (m.natAbs : Int)) = m := by
    split_ifs <;> omega
  simp only [double_round, hm0, if_false, hs, if_true, hno, hsgn]

theorem bit_length_pos_le (a : Nat) (ha : a ≠ 0) : 2 ^ (bit_length a - 1) ≤ a := by
  by_contra hc
  have h1 : a < 2 ^ (bit_length a - 1) := not_le.1 hc
  have h2 := (bit_length_le_iff a (bit_length a - 1)).2 h1
  have h3 : bit_length a ≠ 0 := by
    intro h0
    have := (bit_length_le_iff a 0).1 (by omega)
    simp at this
    exact ha this
  omega

theorem lt_two_pow_bit_length (a : Nat) : a < 2 ^ bit_length a :=
  (bit_length_le_iff a (bit_length a)).1 (le_refl _)

/-- Rounding a natural number with more than 53 binary digits to 53 digits,
to nearest with ties to even, changes it by at most half a unit of the last
digit kept, which is at most the number over `2^53`. -/
theorem round_mantissa (a s : Nat) (hs : 0 < s) (hL : bit_length a = s + 53) :
    ∀ q : Nat,
      q = (if a % 2 ^ s > 2 ^ (s - 1) ∨ (a % 2 ^ s = 2 ^ (s - 1) ∧ a / 2 ^ s % 2 = 1)
            then a / 2 ^ s + 1 else a / 2 ^ s) →
      q ≤ 2 ^ 53 ∧ ((q * 2 ^ s : Nat) : Int) - a ≤ ((2 ^ (s - 1) : Nat) : Int) ∧
        -((2 ^ (s - 1) : Nat) : Int) ≤ ((q * 2 ^ s : Nat) : Int) - a ∧
        2 ^ (s - 1) * 2 ^ 53 ≤ a := by
  intro q hq
  have ha0 : a ≠ 0 := by
    intro h
    subst h
    simp [bit_length, bit_length_fuel] at hL
  have hlow := bit_length_pos_le a ha0
  have hhigh := lt_two_pow_bit_length a
  rw [hL] at hlow hhigh
  have e1 : s + 53 - 1 = (s - 1) + 53 := by omega
  rw [e1, pow_add] at hlow
  rw [pow_add] at hhigh
  have hP : 2 ^ s = 2 * 2 ^ (s - 1) := by
    obtain ⟨t, rfl⟩ : ∃ t, s = t + 1 := ⟨s - 1, by omega⟩
    simp [pow_succ, mul_comm]
  have hdm := Nat.div_add_mod a (2 ^ s)
  have hr := Nat.mod_lt a (show 0 < 2 ^ s by positivity)
  have hq0 : a / 2 ^ s < 2 ^ 53 := by
    rw [Nat.div_lt_iff_lt_mul (by positivity)]
    rw [mul_comm]
    exact hhigh
  generalize a / 2 ^ s = q0 at *
  generalize a % 2 ^ s = r at *
  generalize hD : 2 ^ s * q0 = D at *
  generalize 2 ^ (s - 1) = half at *
  generalize 2 ^ s = P at *
  have hD1 : ((D + P : Nat)) = (q0 + 1) * P := by
    rw [← hD]
    ring
  have hD0 : D = q0 * P := by
    rw [← hD]
    ring
  refine ⟨?_, ?_, ?_, ?_⟩
  · split_ifs at hq <;> omega
  · split_ifs at hq with hc
    · subst hq
      rw [← hD1]
      push_cast
      omega
    · subst hq
      rw [← hD0]
      omega
  · split_ifs at hq with hc
    · subst hq
      rw [← hD1]
      push_cast
      omega
    · subst hq
      rw [← hD0]
      omega
  · exact hlow

theorem double_value_abs (m e : Int) :
    |double_value m e| = (m.natAbs : ℚ) * (2 : ℚ) ^ e := by
  have hp : (0 : ℚ) < (2 : ℚ) ^ e := by positivity
  simp only [double_value]
  rw [abs_mul, abs_of_pos hp, Nat.cast_natAbs, Int.cast_abs]

/-- In the normal range and below the overflow threshold, `double_round`
returns a finite value within a relative error of `2^-53`. -/
theorem double_round_error (m e : Int) (hm0 : m ≠ 0)
    (hsub : -1021 ≤ (bit_length m.natAbs : Int) + e)
    (hov : (bit_length m.natAbs : Int) + e ≤ 1023) :
    ∃ m' e', double_round m e = .finite m' e' ∧
      |double_value m' e' - double_value m e| * 2 ^ 53 ≤ |double_value m e| := by
  by_cases hL : bit_length m.natAbs ≤ 53
  · refine ⟨m, e, double_round_exact m e hm0 ((bit_length_le_iff _ _).1 hL) (by omega)
      (by omega), ?_⟩
    rw [sub_self, abs_zero, zero_mul]
    exact abs_nonneg _
  · obtain ⟨s, hs⟩ : ∃ s : Nat, bit_length m.natAbs = s + 53 :=
      ⟨bit_length m.natAbs - 53, by omega⟩
    have hs0 : 0 < s := by omega
    obtain ⟨hq53, hup, hdown, hlow⟩ := round_mantissa m.natAbs s hs0 hs _ rfl
    generalize hq : (if m.natAbs % 2 ^ s > 2 ^ (s - 1) ∨
        (m.natAbs % 2 ^ s = 2 ^ (s - 1) ∧ m.natAbs / 2 ^ s % 2 = 1)
        then m.natAbs / 2 ^ s + 1 else m.natAbs / 2 ^ s) = q at hq53 hup hdown
    have hmax : max ((bit_length m.natAbs : Int) - 53) (-1074 - e) = (s : Int) := by
      rw [hs]
      push_cast
      rw [max_eq_left (by omega)]
      omega
    have hsn : ¬ ((s : Int) ≤ 0) := by omega
    have hbq : bit_length q ≤ 54 := (bit_length_le_iff q 54).2 (by omega)
    have hno : ¬ ((bit_length q : Int) + (e + s) > 1024) := by omega
    have hr : double_round m e = .finite (if m < 0 then -(q : Int) else (q : Int)) (e + s) := by
      simp only [double_round, hm0, if_false, hmax, hsn, Int.toNat_ofNat, hq, hno]
    refine ⟨_, _, hr, ?_⟩
    have hp : (0 : ℚ) < (2 : ℚ) ^ e := by positivity
    have hpow : (2 : ℚ) ^ (e + (s : Int)) = ((2 ^ s : Nat) : ℚ) * (2 : ℚ) ^ e := by
      rw [zpow_add₀ (by norm_num), zpow_natCast]
      push_cast
      ring
    have hupq : (((q * 2 ^ s : Nat) : Int) : ℚ) - ((m.natAbs : Int) : ℚ) ≤
        (((2 ^ (s - 1) : Nat) : Int) : ℚ) := by exact_mod_cast hup
    have hdownq : -(((2 ^ (s - 1) : Nat) : Int) : ℚ) ≤
        (((q * 2 ^ s : Nat) : Int) : ℚ) - ((m.natAbs : Int) : ℚ) := by exact_mod_cast hdown
    have hlowq : (((2 ^ (s - 1) : Nat) : Int) : ℚ) * 2 ^ 53 ≤ ((m.natAbs : Int) : ℚ) := by
      exact_mod_cast hlow
    have habsd : |(((q * 2 ^ s : Nat) : Int) : ℚ) - ((m.natAbs : Int) : ℚ)| * 2 ^ 53 ≤
        ((m.natAbs : Int) : ℚ) := by
      have h1 : |(((q * 2 ^ s : Nat) : Int) : ℚ) - ((m.natAbs : Int) : ℚ)| ≤
          (((2 ^ (s - 1) : Nat) : Int) : ℚ) := abs_le.2 ⟨hdownq, hupq⟩
      nlinarith
    have hval : double_value (if m < 0 then -(q : Int) else (q : Int)) (e + s) -
        double_value m e =
        (if m < 0 then (-1 : ℚ) else 1) *
          (((((q * 2 ^ s : Nat) : Int) : ℚ) - ((m.natAbs : Int) : ℚ)) * (2 : ℚ) ^ e) := by
      simp only [double_value, hpow]
      by_cases hneg : m < 0
      · have hm : (m : ℚ) = -((m.natAbs : Int) : ℚ) := by
          have : m = -(m.natAbs : Int) := by omega
          exact_mod_cast this
        rw [if_pos hneg, if_pos hneg, hm]
        push_cast
        ring
      · have hm : (m : ℚ) = ((m.natAbs : Int) : ℚ) := by
          have : m = (m.natAbs : Int) := by omega
          exact_mod_cast this
        rw [if_neg hneg, if_neg hneg, hm]
        push_cast
        ring
    have hsgn : |(if m < 0 then (-1 : ℚ) else 1)| = 1 := by
      split_ifs <;> simp
    rw [hval, abs_mul, hsgn, one_mul, abs_mul, abs_of_pos hp, double_value_abs]
    have hcast : ((m.natAbs : Int) : ℚ) = (m.natAbs : ℚ) := Int.cast_natCast _
    rw [← hcast]
    have h := mul_le_mul_of_nonneg_right habsd (le_of_lt hp)
    nlinarith [h]

/-- When the product of the mantissa and `1000000` has at most 53 binary
digits, the product in `double` is exact and the cast discards its fractional
part. -/
theorem macsim_schedule_delay_exact (m e : Int) (hm : (m * 1000000).natAbs < 2 ^ 53)
    (he : -1074 ≤ e) (hx : |double_value m e * 1000000| < 9223372036854775808) :
    macsim_schedule_delay (.finite m e) =
      if 0 ≤ double_value m e * 1000000 then ⌊double_value m e * 1000000⌋
      else ⌈double_value m e * 1000000⌉ := by
  have hv : double_value (m * 1000000) e = double_value m e * 1000000 := by
    simp only [double_value]
    push_cast
    ring
  rw [abs_lt] at hx
  rw [← hv] at hx ⊢
  have hfin := double_to_long_long_finite (m * 1000000) e hx.1 hx.2
  by_cases hm0 : m * 1000000 = 0
  · have hz : m = 0 := by omega
    subst hz
    rw [← hfin]
    simp only [macsim_schedule_delay, double_mul, zero_mul, double_round, if_true]
    simp only [double_to_long_long, zero_mul, Int.zero_tdiv, ite_self]
  · have hov : (bit_length (m * 1000000).natAbs : Int) + e ≤ 1024 := by
      by_contra hc
      have hl : bit_length (m * 1000000).natAbs ≤ 53 := (bit_length_le_iff _ _).2 hm
      have he2 : (63 : Int) ≤ e := by omega
      have hpow : (2 : ℚ) ^ (63 : Int) ≤ (2 : ℚ) ^ e := zpow_le_zpow_right₀ (by norm_num) he2
      have hp0 : (0 : ℚ) < (2 : ℚ) ^ e := by positivity
      have h63 : (2 : ℚ) ^ (63 : Int) = 9223372036854775808 := by norm_num
      have habs : (1 : ℚ) ≤ |((m * 1000000 : Int) : ℚ)| := by
        have : (1 : Int) ≤ |m * 1000000| := Int.one_le_abs hm0
        exact_mod_cast this
      have hval : |double_value (m * 1000000) e| = |((m * 1000000 : Int) : ℚ)| * (2 : ℚ) ^ e := by
        simp only [double_value]
        rw [abs_mul, abs_of_pos hp0]
      have hlt : |double_value (m * 1000000) e| < 9223372036854775808 := abs_lt.2 hx
      rw [hval] at hlt
      nlinarith
    rw [← hfin]
    simp only [macsim_schedule_delay, double_mul, add_zero]
    rw [double_round_exact (m * 1000000) e hm0 hm he hov]

/-- In the normal range of `double`, the delay that `macsim_schedule` adds is
the cast of a value within a relative error of `2^-53` of the exact product. -/
theorem macsim_schedule_delay_rounded (m e : Int) (hm0 : m ≠ 0)
    (hsub : -1021 ≤ (bit_length (m * 1000000).natAbs : Int) + e)
    (hov : (bit_length (m * 1000000).natAbs : Int) + e ≤ 1023) :
    ∃ p : ℚ, |p - double_value m e * 1000000| * 2 ^ 53 ≤ |double_value m e * 1000000| ∧
      macsim_schedule_delay (.finite m e) =
        if -9223372036854775809 < p ∧ p < 9223372036854775808 then
          (if 0 ≤ p then ⌊p⌋ else ⌈p⌉)
        else LLONG_MIN := by
  have hv : double_value (m * 1000000) e = double_value m e * 1000000 := by
    simp only [double_value]
    push_cast
    ring
  have hM : m * 1000000 ≠ 0 := by omega
  obtain ⟨m', e', hr, herr⟩ := double_round_error (m * 1000000) e hM hsub hov
  refine ⟨double_value m' e', ?_, ?_⟩
  · rw [← hv]
    exact herr
  · simp only [macsim_schedule_delay, double_mul, add_zero]
    rw [hr, double_to_long_long_eq]

/-- C5, as stated, fails: for `ms = 2^-20` the product `ms * 1000000` is
`15625/16384`, about 0.954 ns, exact in a `double` and nearer to 1 than to 0;
`macsim_schedule` on the initialised kernel inserts the event at deadline 0,
while the nearest integer is 1. -/
theorem macsim_schedule_not_rounded :
    (macsim_schedule macsim_init 1 1 (.finite 1 (-20))).event_queue = [(0, ⟨1, 1⟩)] ∧
    double_value 1 (-20) * 1000000 = 15625 / 16384 ∧
    |(15625 / 16384 : ℚ) - 1| < 1 / 2 ∧
    macsim_init.current_time + round (double_value 1 (-20) * 1000000) = 1 := by
  have hx : double_value 1 (-20) * 1000000 = 15625 / 16384 := by
    norm_num [double_value]
  have hr : round (15625 / 16384 : ℚ) = 1 := by
    rw [round_eq, Int.floor_eq_iff]
    norm_num
  refine ⟨by decide, hx, ?_, ?_⟩
  · rw [abs_lt]
    norm_num
  · rw [hx, hr]
    rfl

/-- C5, amended: `macsim_schedule` inserts exactly one event `(kind,
client_id)` and changes nothing else; its deadline is the wrapping sum of
`current_time` and `(long long) (ms * 1000000)`, the product being formed in
`double`.  When the product is exact in `double` (the mantissa of `ms` times
`1000000` has at most 53 binary digits) and below `2^63` in magnitude, and the
sum stays a `long long` value, the deadline is `current_time` plus the product
with its fractional part discarded, the floor of a non-negative product and
the ceiling of a negative one.  A product that is not exact is rounded to a
`double` first: for the `double` nearest to `0.3` the delay is `300000`, while
the exact product has the integer part `299999`.  In general, for a product in
the normal range of `double` (`l + e` between `-1021` and `1023`, where `l`
binary digits of the integer product stand before the exponent `e`, so that
the product lies between `2^-1022` and `2^1023` in magnitude), the delay is the
cast of a value `p` within a relative error of `2^-53` of the exact product:
`p` with its fractional part discarded when that is a `long long` value, and
`LLONG_MIN` otherwise. -/
theorem macsim_schedule_truncates :
    (∀ (k : Kernel) (kind client_id : Int) (ms : double),
      macsim_schedule k kind client_id ms =
        { k with event_queue := k.event_queue ++
            [(long_long_add k.current_time
                (double_to_long_long (double_mul ms (.finite 1000000 0))),
              { client := client_id, kind := kind })] }) ∧
    (∀ (k : Kernel) (kind client_id m e : Int),
      (m * 1000000).natAbs < 2 ^ 53 → -1074 ≤ e →
      |double_value m e * 1000000| < 9223372036854775808 →
      LLONG_MIN ≤ k.current_time +
        (if 0 ≤ double_value m e * 1000000 then ⌊double_value m e * 1000000⌋
         else ⌈double_value m e * 1000000⌉) →
      k.current_time +
        (if 0 ≤ double_value m e * 1000000 then ⌊double_value m e * 1000000⌋
         else ⌈double_value m e * 1000000⌉) ≤ LLONG_MAX →
      macsim_schedule k kind client_id (.finite m e) =
        { k with event_queue := k.event_queue ++
            [(k.current_time +
                (if 0 ≤ double_value m e * 1000000 then ⌊double_value m e * 1000000⌋
                 else ⌈double_value m e * 1000000⌉),
              { client := client_id, kind := kind })] }) ∧
    (macsim_schedule_delay (.finite 5404319552844595 (-54)) = 300000 ∧
      ⌊double_value 5404319552844595 (-54) * 1000000⌋ = 299999) ∧
    (∀ m e : Int, m ≠ 0 →
      -1021 ≤ (bit_length (m * 1000000).natAbs : Int) + e →
      (bit_length (m * 1000000).natAbs : Int) + e ≤ 1023 →
      ∃ p : ℚ, |p - double_value m e * 1000000| * 2 ^ 53 ≤ |double_value m e * 1000000| ∧
        macsim_schedule_delay (.finite m e) =
          if -9223372036854775809 < p ∧ p < 9223372036854775808 then
            (if 0 ≤ p then ⌊p⌋ else ⌈p⌉)
          else LLONG_MIN) := by
  refine ⟨fun k kind client_id ms => rfl, ?_, ⟨by decide, ?_⟩, macsim_schedule_delay_rounded⟩
  · intro k kind client_id m e hm he hx hlo hhi
    have hd := macsim_schedule_delay_exact m e hm he hx
    simp only [macsim_schedule, heap_insert]
    rw [hd, long_long_add_of_in_range _ _ hlo hhi]
  · rw [Int.floor_eq_iff]
    norm_num [double_value]

/-- Witness for C5: `ms = 2^-20` on the initialised kernel; the product is
`15625/16384` and the event is inserted at the deadline 0. -/
theorem macsim_schedule_truncates_witness :
    macsim_schedule macsim_init 1 1 (.finite 1 (-20)) =
      { macsim_init with event_queue := macsim_init.event_queue ++
          [(macsim_init.current_time +
              (if 0 ≤ double_value 1 (-20) * 1000000 then ⌊double_value 1 (-20) * 1000000⌋
               else ⌈double_value 1 (-20) * 1000000⌉),
            { client := 1, kind := 1 })] } ∧
    (if 0 ≤ double_value 1 (-20) * 1000000 then ⌊double_value 1 (-20) * 1000000⌋
      else ⌈double_value 1 (-20) * 1000000⌉) = 0 := by
  have hx : double_value 1 (-20) * 1000000 = 15625 / 16384 := by
    norm_num [double_value]
  have hf : ⌊(15625 / 16384 : ℚ)⌋ = 0 := by
    rw [Int.floor_eq_iff]
    norm_num
  have ht : (if 0 ≤ double_value 1 (-20) * 1000000 then ⌊double_value 1 (-20) * 1000000⌋
      else ⌈double_value 1 (-20) * 1000000⌉) = 0 := by
    rw [hx, if_pos (by norm_num), hf]
  refine ⟨macsim_schedule_truncates.2.1 macsim_init 1 1 1 (-20) (by decide) (by decide) ?_ ?_ ?_,
    ht⟩
  · rw [hx, abs_lt]
    norm_num
  · rw [ht]
    decide
  · rw [ht]
    decide

/-! ## Properties of the station operations -/

/-- Outside the handoff, on a station whose flag is clear or whose queue has a
head, `macsim_station_request` appends one record for the client at the tail
and touches nothing else; the code is `MACSIM_USING_STATION` with
`server_entry_time = current_time` when the queue was empty and
`MACSIM_WAITING_STATION` with `server_entry_time = 0` otherwise. -/
theorem macsim_station_request_enqueue (k : Kernel) (st : macsim_station_t) (c : Int)
    (hh : st.reschedule = false ∨ ∃ h rest, st.clients = h :: rest ∧ h.id ≠ c) :
    macsim_station_request k (some st) c =
      .ok (if st.clients = [] then MACSIM_USING_STATION else MACSIM_WAITING_STATION,
           { st with clients := st.clients ++
               [{ id := c, station_entry_time := k.current_time,
                  server_entry_time := if st.clients = [] then k.current_time else 0,
                  event_kind := k.current_event }] }) := by
  have he : macsim_station_enqueue k st c =
      (if st.clients = [] then MACSIM_USING_STATION else MACSIM_WAITING_STATION,
           { st with clients := st.clients ++
               [{ id := c, station_entry_time := k.current_time,
                  server_entry_time := if st.clients = [] then k.current_time else 0,
                  event_kind := k.current_event }] }) := by
    unfold macsim_station_enqueue
    cases hc : st.clients with
    | nil => simp
    | cons x xs => simp
  rcases hh with hf | ⟨h, rest, hq, hne⟩
  · simp only [macsim_station_request, hf, Bool.false_eq_true, if_false, he]
  · rcases Bool.eq_false_or_eq_true st.reschedule with hr | hr
    · simp only [macsim_station_request, hr, if_true]
      rw [hq]
      simp only [hne, if_false]
      rw [← hq, he, hr]
    · simp only [macsim_station_request, hr, Bool.false_eq_true, if_false, he]

/-- C6: on a station created empty, the calls request(1), request(2),
leave(1), leave(2) all succeed and leave the reschedule flag set on an empty
queue; there the handoff condition does not hold for client 3, yet
`macsim_station_request` reads the head of the empty queue and stops, where
the claim has it append client 3 and return `MACSIM_USING_STATION`. -/
theorem macsim_station_request_empty_flagged :
    macsim_station_request macsim_init (some (macsim_station_new "S")) 1 =
      .ok (MACSIM_USING_STATION, ⟨"S", false, [⟨1, 0, 0, 0⟩], 0, 0, 0⟩) ∧
    macsim_station_request macsim_init (some ⟨"S", false, [⟨1, 0, 0, 0⟩], 0, 0, 0⟩) 2 =
      .ok (MACSIM_WAITING_STATION, ⟨"S", false, [⟨1, 0, 0, 0⟩, ⟨2, 0, 0, 0⟩], 0, 0, 0⟩) ∧
    macsim_station_leave macsim_init
        (some ⟨"S", false, [⟨1, 0, 0, 0⟩, ⟨2, 0, 0, 0⟩], 0, 0, 0⟩) 1 =
      .ok (⟨0, 0, [(0, ⟨2, 0⟩)], 0⟩, ⟨"S", true, [⟨2, 0, 0, 0⟩], 0, 0, 1⟩) ∧
    macsim_station_leave ⟨0, 0, [(0, ⟨2, 0⟩)], 0⟩ (some ⟨"S", true, [⟨2, 0, 0, 0⟩], 0, 0, 1⟩) 2 =
      .ok (⟨0, 0, [(0, ⟨2, 0⟩)], 0⟩, ⟨"S", true, [], 0, 0, 2⟩) ∧
    macsim_station_request ⟨0, 0, [(0, ⟨2, 0⟩)], 0⟩ (some ⟨"S", true, [], 0, 0, 2⟩) 3 =
      .error Failure.null_dereference :=
  ⟨rfl, rfl, rfl, rfl, rfl⟩

/-- C7: when the reschedule flag is set and the head of the queue has id `c`,
`macsim_station_request(station, c)` returns `MACSIM_USING_STATION`, clears the
flag, stamps the head with `server_entry_time = current_time` and changes
nothing else (it writes no kernel state, so no event is scheduled).  This is
what the request for the new head does after a successful leave from a queue of
two or more clients. -/
theorem macsim_station_request_handoff :
    (∀ (k : Kernel) (st : macsim_station_t) (c : Int) (h : macsim_station_client_t)
        (rest : List macsim_station_client_t),
        st.reschedule = true → st.clients = h :: rest → h.id = c →
        macsim_station_request k (some st) c =
          .ok (MACSIM_USING_STATION,
               { st with reschedule := false,
                         clients := { h with server_entry_time := k.current_time } :: rest })) ∧
    (∀ (k k' : Kernel) (st st' : macsim_station_t) (c : Int)
        (h n : macsim_station_client_t) (rest : List macsim_station_client_t),
        st.clients = h :: n :: rest →
        macsim_station_leave k (some st) c = .ok (k', st') →
        st'.reschedule = true ∧ st'.clients = n :: rest ∧
        macsim_station_request k' (some st') n.id =
          .ok (MACSIM_USING_STATION,
               { st' with reschedule := false,
                          clients := { n with server_entry_time := k'.current_time } :: rest })) := by
  have part1 : ∀ (k : Kernel) (st : macsim_station_t) (c : Int) (h : macsim_station_client_t)
      (rest : List macsim_station_client_t),
      st.reschedule = true → st.clients = h :: rest → h.id = c →
      macsim_station_request k (some st) c =
        .ok (MACSIM_USING_STATION,
             { st with reschedule := false,
                       clients := { h with server_entry_time := k.current_time } :: rest }) := by
    intro k st c h rest hf hq hid
    simp only [macsim_station_request, hf, if_true]
    rw [hq]
    simp only [hid, if_true]
  refine ⟨part1, ?_⟩
  intro k k' st st' c h n rest hq hok
  have hst : st'.reschedule = true ∧ st'.clients = n :: rest := by
    simp only [macsim_station_leave] at hok
    rw [hq] at hok
    simp only at hok
    split_ifs at hok
    simp only [Except.ok.injEq, Prod.mk.injEq] at hok
    obtain ⟨-, rfl⟩ := hok
    exact ⟨rfl, rfl⟩
  exact ⟨hst.1, hst.2, part1 k' st' n.id n rest hst.1 hst.2 rfl⟩

/-- Witness for C7: a flagged station with head 2 at time 5, and a leave of
client 1 from the queue 1, 2, 3 followed by the request of client 2. -/
theorem macsim_station_request_handoff_witness :
    macsim_station_request ⟨5, 0, [], 0⟩
        (some ⟨"S", true, [⟨2, 1, 0, 7⟩, ⟨3, 2, 0, 7⟩], 0, 0, 1⟩) 2 =
      .ok (MACSIM_USING_STATION, ⟨"S", false, [⟨2, 1, 5, 7⟩, ⟨3, 2, 0, 7⟩], 0, 0, 1⟩) ∧
    macsim_station_leave ⟨5, 0, [], 0⟩
        (some ⟨"S", false, [⟨1, 0, 0, 7⟩, ⟨2, 1, 0, 7⟩, ⟨3, 2, 0, 7⟩], 0, 0, 0⟩) 1 =
      .ok (⟨5, 0, [(5, ⟨2, 7⟩)], 0⟩, ⟨"S", true, [⟨2, 1, 0, 7⟩, ⟨3, 2, 0, 7⟩], 5, 5, 1⟩) ∧
    macsim_station_request ⟨5, 0, [(5, ⟨2, 7⟩)], 0⟩
        (some ⟨"S", true, [⟨2, 1, 0, 7⟩, ⟨3, 2, 0, 7⟩], 5, 5, 1⟩) 2 =
      .ok (MACSIM_USING_STATION, ⟨"S", false, [⟨2, 1, 5, 7⟩, ⟨3, 2, 0, 7⟩], 5, 5, 1⟩) :=
  ⟨macsim_station_request_handoff.1 ⟨5, 0, [], 0⟩
      ⟨"S", true, [⟨2, 1, 0, 7⟩, ⟨3, 2, 0, 7⟩], 0, 0, 1⟩ 2 ⟨2, 1, 0, 7⟩ [⟨3, 2, 0, 7⟩]
      rfl rfl rfl,
   rfl,
   (macsim_station_request_handoff.2 ⟨5, 0, [], 0⟩ ⟨5, 0, [(5, ⟨2, 7⟩)], 0⟩
      ⟨"S", false, [⟨1, 0, 0, 7⟩, ⟨2, 1, 0, 7⟩, ⟨3, 2, 0, 7⟩], 0, 0, 0⟩
      ⟨"S", true, [⟨2, 1, 0, 7⟩, ⟨3, 2, 0, 7⟩], 5, 5, 1⟩ 1
      ⟨1, 0, 0, 7⟩ ⟨2, 1, 0, 7⟩ [⟨3, 2, 0, 7⟩] rfl rfl).2.2⟩

/-- C8: a client enqueued by `macsim_station_request` with the id `2^32 + 7`
cannot leave: `macsim_station_leave` called with that same id receives it as
the `int` 7, finds the head id different and aborts.  In the other direction,
on a head with id 7 the call with `2^32 + 7` succeeds although the ids
differ. -/
theorem macsim_station_leave_int_parameter :
    macsim_station_request macsim_init (some (macsim_station_new "S")) 4294967303 =
      .ok (MACSIM_USING_STATION, ⟨"S", false, [⟨4294967303, 0, 0, 0⟩], 0, 0, 0⟩) ∧
    macsim_station_leave macsim_init
        (some ⟨"S", false, [⟨4294967303, 0, 0, 0⟩], 0, 0, 0⟩) 4294967303 =
      .error (Failure.fatal "macsim_station_leave: client id missmatch") ∧
    macsim_station_leave macsim_init (some ⟨"S", false, [⟨7, 0, 0, 0⟩], 0, 0, 0⟩) 4294967303 =
      .ok (macsim_init, ⟨"S", false, [], 0, 0, 1⟩) :=
  ⟨rfl, rfl, rfl⟩

/-- The outcome of `macsim_station_leave` on a station with a head record. -/
theorem macsim_station_leave_cons (k : Kernel) (st : macsim_station_t) (c : Int)
    (h : macsim_station_client_t) (rest : List macsim_station_client_t)
    (hq : st.clients = h :: rest) :
    macsim_station_leave k (some st) c =
      if h.id ≠ long_long_to_int c then
        .error (Failure.fatal "macsim_station_leave: client id missmatch")
      else
        .ok (match rest with
             | [] => k
             | n :: _ => { k with event_queue :=
                             k.event_queue ++ [(k.current_time, ⟨n.id, h.event_kind⟩)] },
             { st with
               clients := rest,
               reschedule := match rest with
                             | [] => st.reschedule
                             | _ :: _ => true,
               total_clients := st.total_clients + 1,
               total_response_time :=
                 st.total_response_time + (k.current_time - h.station_entry_time),
               total_service_time :=
                 st.total_service_time + (k.current_time - h.server_entry_time) }) := by
  obtain ⟨name, flag, clients, tsv, trs, tcl⟩ := st
  simp only at hq
  subst hq
  cases rest with
  | nil => rfl
  | cons n ns =>
    simp only [macsim_station_leave, macsim_schedule_ns, heap_insert, long_long_add_zero]

/-- C10: `macsim_station_leave(station, c)` succeeds exactly when the queue
has a head `h` whose id is `c` as an `int`.  When a client `n` follows the
head, the call returns with exactly one event added to the event queue, with
deadline `current_time`, kind `h.event_kind` and client id `n.id`, and with the
reschedule flag set.  When the head was alone, the call returns with the kernel
state, and with it the event queue, unchanged and the reschedule flag as it
was.  In both cases the head is removed and the counters are updated. -/
theorem macsim_station_leave_dispatch :
    (∀ (k : Kernel) (st : macsim_station_t) (c : Int) (h n : macsim_station_client_t)
        (rest : List macsim_station_client_t),
        st.clients = h :: n :: rest → h.id = long_long_to_int c →
        macsim_station_leave k (some st) c =
          .ok ({ k with event_queue :=
                   k.event_queue ++ [(k.current_time, ⟨n.id, h.event_kind⟩)] },
               { st with
                 clients := n :: rest,
                 reschedule := true,
                 total_clients := st.total_clients + 1,
                 total_response_time :=
                   st.total_response_time + (k.current_time - h.station_entry_time),
                 total_service_time :=
                   st.total_service_time + (k.current_time - h.server_entry_time) })) ∧
    (∀ (k : Kernel) (st : macsim_station_t) (c : Int) (h : macsim_station_client_t),
        st.clients = [h] → h.id = long_long_to_int c →
        macsim_station_leave k (some st) c =
          .ok (k,
               { st with
                 clients := [],
                 total_clients := st.total_clients + 1,
                 total_response_time :=
                   st.total_response_time + (k.current_time - h.station_entry_time),
                 total_service_time :=
                   st.total_service_time + (k.current_time - h.server_entry_time) })) ∧
    (∀ (k k' : Kernel) (st st' : macsim_station_t) (c : Int),
        macsim_station_leave k (some st) c = .ok (k', st') →
        ∃ h rest, st.clients = h :: rest ∧ h.id = long_long_to_int c) := by
  refine ⟨?_, ?_, ?_⟩
  · intro k st c h n rest hq hid
    rw [macsim_station_leave_cons k st c h (n :: rest) hq]
    simp only [hid, ne_eq, not_true_eq_false, if_false]
  · intro k st c h hq hid
    rw [macsim_station_leave_cons k st c h [] hq]
    simp only [hid, ne_eq, not_true_eq_false, if_false]
  · intro k k' st st' c hok
    cases hq : st.clients with
    | nil =>
      simp only [macsim_station_leave, hq] at hok
      cases hok
    | cons h rest =>
      rw [macsim_station_leave_cons k st c h rest hq] at hok
      split_ifs at hok with hne
      exact ⟨h, rest, rfl, not_not.1 hne⟩

/-- Witness for C10: client 1 leaves at time 50 with client 2 waiting, and
client 2 leaves at time 60 from a queue of one while the flag is clear. -/
theorem macsim_station_leave_dispatch_witness :
    macsim_station_leave ⟨50, 0, [], 0⟩
        (some ⟨"S", false, [⟨1, 10, 20, 7⟩, ⟨2, 30, 0, 8⟩], 100, 200, 3⟩) 1 =
      .ok (⟨50, 0, [(50, ⟨2, 7⟩)], 0⟩, ⟨"S", true, [⟨2, 30, 0, 8⟩], 130, 240, 4⟩) ∧
    macsim_station_leave ⟨60, 0, [], 0⟩
        (some ⟨"S", false, [⟨2, 30, 40, 8⟩], 130, 240, 4⟩) 2 =
      .ok (⟨60, 0, [], 0⟩, ⟨"S", false, [], 150, 270, 5⟩) :=
  ⟨macsim_station_leave_dispatch.1 ⟨50, 0, [], 0⟩
      ⟨"S", false, [⟨1, 10, 20, 7⟩, ⟨2, 30, 0, 8⟩], 100, 200, 3⟩ 1 ⟨1, 10, 20, 7⟩
      ⟨2, 30, 0, 8⟩ [] rfl rfl,
   macsim_station_leave_dispatch.2.1 ⟨60, 0, [], 0⟩
      ⟨"S", false, [⟨2, 30, 40, 8⟩], 130, 240, 4⟩ 2 ⟨2, 30, 40, 8⟩ rfl rfl⟩

/-- C11, as stated, fails: client 1 is enqueued while the current event is 7,
client 2 while it is 8; when client 1 leaves, the event scheduled for the new
head, client 2, has kind 7, while the record of client 2 stores kind 8. -/
theorem macsim_station_leave_kind_of_departed :
    macsim_station_request ⟨0, 0, [], 7⟩ (some (macsim_station_new "S")) 1 =
      .ok (MACSIM_USING_STATION, ⟨"S", false, [⟨1, 0, 0, 7⟩], 0, 0, 0⟩) ∧
    macsim_station_request ⟨0, 0, [], 8⟩ (some ⟨"S", false, [⟨1, 0, 0, 7⟩], 0, 0, 0⟩) 2 =
      .ok (MACSIM_WAITING_STATION, ⟨"S", false, [⟨1, 0, 0, 7⟩, ⟨2, 0, 0, 8⟩], 0, 0, 0⟩) ∧
    macsim_station_leave ⟨5, 0, [], 9⟩
        (some ⟨"S", false, [⟨1, 0, 0, 7⟩, ⟨2, 0, 0, 8⟩], 0, 0, 0⟩) 1 =
      .ok (⟨5, 0, [(5, ⟨2, 7⟩)], 9⟩, ⟨"S", true, [⟨2, 0, 0, 8⟩], 5, 5, 1⟩) ∧
    (⟨2, 7⟩ : macsim_event_t).kind ≠ (⟨2, 0, 0, 8⟩ : macsim_station_client_t).event_kind :=
  ⟨rfl, rfl, rfl, by decide⟩

/-- C11, amended: after a successful leave that leaves the queue non-empty, the
one event added for the new head `n` carries the kind stored in the record of
the departed client `h`; its kind is the one stored in the record of `n`
exactly when the two records store the same kind. -/
theorem macsim_station_leave_event_kind (k k' : Kernel) (st st' : macsim_station_t) (c : Int)
    (h n : macsim_station_client_t) (rest : List macsim_station_client_t)
    (hq : st.clients = h :: n :: rest)
    (hok : macsim_station_leave k (some st) c = .ok (k', st')) :
    ∃ ev : macsim_event_t, k'.event_queue = k.event_queue ++ [(k.current_time, ev)] ∧
      ev.client = n.id ∧ ev.kind = h.event_kind ∧
      st'.clients.head? = some n ∧
      (ev.kind = n.event_kind ↔ h.event_kind = n.event_kind) := by
  rw [macsim_station_leave_cons k st c h (n :: rest) hq] at hok
  split_ifs at hok
  simp only [Except.ok.injEq, Prod.mk.injEq] at hok
  obtain ⟨rfl, rfl⟩ := hok
  exact ⟨⟨n.id, h.event_kind⟩, rfl, rfl, rfl, rfl, Iff.rfl⟩

/-- Witness for C11: the leave of client 1 at time 5 from the queue 1, 2. -/
theorem macsim_station_leave_event_kind_witness :
    ∃ ev : macsim_event_t,
      (⟨5, 0, [(5, ⟨2, 7⟩)], 9⟩ : Kernel).event_queue =
        (⟨5, 0, [], 9⟩ : Kernel).event_queue ++ [((⟨5, 0, [], 9⟩ : Kernel).current_time, ev)] ∧
      ev.client = (⟨2, 0, 0, 8⟩ : macsim_station_client_t).id ∧
      ev.kind = (⟨1, 0, 0, 7⟩ : macsim_station_client_t).event_kind ∧
      (⟨"S", true, [⟨2, 0, 0, 8⟩], 5, 5, 1⟩ : macsim_station_t).clients.head? =
        some ⟨2, 0, 0, 8⟩ ∧
      (ev.kind = (⟨2, 0, 0, 8⟩ : macsim_station_client_t).event_kind ↔
        (⟨1, 0, 0, 7⟩ : macsim_station_client_t).event_kind =
          (⟨2, 0, 0, 8⟩ : macsim_station_client_t).event_kind) :=
  macsim_station_leave_event_kind ⟨5, 0, [], 9⟩ ⟨5, 0, [(5, ⟨2, 7⟩)], 9⟩
    ⟨"S", false, [⟨1, 0, 0, 7⟩, ⟨2, 0, 0, 8⟩], 0, 0, 0⟩
    ⟨"S", true, [⟨2, 0, 0, 8⟩], 5, 5, 1⟩ 1 ⟨1, 0, 0, 7⟩ ⟨2, 0, 0, 8⟩ [] rfl rfl

/-- One successful station call keeps `queue_length + total_clients` equal to
the number of requests that enqueued a record. -/
theorem macsim_station_call_run_conservation (k : Kernel) (st st' : macsim_station_t)
    (acc acc' : Nat) (c : macsim_station_call)
    (hinv : (st.clients.length : Int) + st.total_clients = acc)
    (hr : c.run k st acc = .ok (st', acc')) :
    (st'.clients.length : Int) + st'.total_clients = acc' := by
  cases c with
  | request cid =>
    simp only [macsim_station_call.run] at hr
    rcases Bool.eq_false_or_eq_true st.reschedule with hf | hf
    · cases hq : st.clients with
      | nil =>
        simp only [macsim_station_request, hf, if_true, hq] at hr
        cases hr
      | cons h rest =>
        by_cases hid : h.id = cid
        · simp only [macsim_station_request, hf, if_true, hq, hid, macsim_station_is_handoff,
            Bool.true_and, decide_True, Except.ok.injEq, Prod.mk.injEq] at hr
          obtain ⟨rfl, rfl⟩ := hr
          simp only [List.length_cons]
          rw [hq] at hinv
          simpa using hinv
        · rw [macsim_station_request_enqueue k st cid (Or.inr ⟨h, rest, hq, hid⟩)] at hr
          simp only [macsim_station_is_handoff, hf, hq, hid, Bool.true_and, decide_False,
            Bool.false_eq_true, if_false, Except.ok.injEq, Prod.mk.injEq] at hr
          obtain ⟨rfl, rfl⟩ := hr
          rw [hq] at hinv
          simp only [hq, List.length_append, List.length_cons, List.length_nil] at hinv ⊢
          push_cast at hinv ⊢
          omega
    · rw [macsim_station_request_enqueue k st cid (Or.inl hf)] at hr
      simp only [macsim_station_is_handoff, hf, Bool.false_and, Bool.false_eq_true, if_false,
        Except.ok.injEq, Prod.mk.injEq] at hr
      obtain ⟨rfl, rfl⟩ := hr
      simp only [List.length_append, List.length_singleton]
      push_cast
      omega
  | leave cid =>
    simp only [macsim_station_call.run] at hr
    cases hq : st.clients with
    | nil =>
      simp only [macsim_station_leave, hq] at hr
      cases hr
    | cons h rest =>
      rw [macsim_station_leave_cons k st cid h rest hq] at hr
      split_ifs at hr
      simp only [Except.ok.injEq, Prod.mk.injEq] at hr
      obtain ⟨rfl, rfl⟩ := hr
      rw [hq] at hinv
      simp only [List.length_cons] at hinv
      push_cast at hinv
      dsimp only
      omega

/-- A successful sequence of station calls keeps `queue_length + total_clients`
equal to the number of requests that enqueued a record. -/
theorem macsim_station_run_conservation (calls : List (Kernel × macsim_station_call))
    (st st' : macsim_station_t) (acc acc' : Nat)
    (hinv : (st.clients.length : Int) + st.total_clients = acc)
    (hr : macsim_station_run st acc calls = .ok (st', acc')) :
    (st'.clients.length : Int) + st'.total_clients = acc' := by
  induction calls generalizing st acc with
  | nil =>
    simp only [macsim_station_run, Except.ok.injEq, Prod.mk.injEq] at hr
    obtain ⟨rfl, rfl⟩ := hr
    exact hinv
  | cons kc cs ih =>
    obtain ⟨k, c⟩ := kc
    simp only [macsim_station_run] at hr
    cases hc : c.run k st acc with
    | error e => rw [hc] at hr; cases hr
    | ok r =>
      obtain ⟨st1, acc1⟩ := r
      rw [hc] at hr
      exact ih st1 acc1 (macsim_station_call_run_conservation k st st1 acc acc1 c hinv hc) hr

/-- C12: after every sequence of successful `macsim_station_request` and
`macsim_station_leave` calls on a freshly created station, the queue length
plus `total_clients` equals the number of requests that enqueued a new client
record; as the sequence is arbitrary, this holds after each call. -/
theorem macsim_station_conservation (name : String)
    (calls : List (Kernel × macsim_station_call)) (st : macsim_station_t) (accepted : Nat)
    (hr : macsim_station_run (macsim_station_new name) 0 calls = .ok (st, accepted)) :
    (st.clients.length : Int) + st.total_clients = accepted := by
  have h0 : (((macsim_station_new name).clients.length : Nat) : Int) +
      (macsim_station_new name).total_clients = ((0 : Nat) : Int) := by
    simp [macsim_station_new]
  exact macsim_station_run_conservation calls (macsim_station_new name) st 0 accepted h0 hr

/-- Witness for C12: requests of clients 1 and 2, the leave of client 1, the
handoff request of client 2 and a request of client 3: three records were
enqueued, two are queued and one client has left. -/
theorem macsim_station_conservation_witness :
    macsim_station_run (macsim_station_new "S") 0
        [(⟨0, 0, [], 7⟩, .request 1), (⟨1, 0, [], 7⟩, .request 2), (⟨5, 0, [], 9⟩, .leave 1),
         (⟨5, 0, [], 7⟩, .request 2), (⟨6, 0, [], 7⟩, .request 3)] =
      .ok (⟨"S", false, [⟨2, 1, 5, 7⟩, ⟨3, 6, 0, 7⟩], 5, 5, 1⟩, 3) ∧
    (((⟨"S", false, [⟨2, 1, 5, 7⟩, ⟨3, 6, 0, 7⟩], 5, 5, 1⟩ : macsim_station_t).clients.length
        : Nat) : Int) +
      (⟨"S", false, [⟨2, 1, 5, 7⟩, ⟨3, 6, 0, 7⟩], 5, 5, 1⟩ : macsim_station_t).total_clients =
      ((3 : Nat) : Int) :=
  ⟨rfl, macsim_station_conservation "S"
    [(⟨0, 0, [], 7⟩, .request 1), (⟨1, 0, [], 7⟩, .request 2), (⟨5, 0, [], 9⟩, .leave 1),
     (⟨5, 0, [], 7⟩, .request 2), (⟨6, 0, [], 7⟩, .request 3)]
    ⟨"S", false, [⟨2, 1, 5, 7⟩, ⟨3, 6, 0, 7⟩], 5, 5, 1⟩ 3 rfl⟩

/-! ## Properties of the station table -/

theorem hash_table_get_append (table : hash_table_t) (key : String) (value : macsim_station_t)
    (m : String) :
    hash_table_get (table ++ [(key, value)]) m =
      match hash_table_get table m with
      | some v => some v
      | none => if key = m then some value else none := by
  induction table with
  | nil => simp [hash_table_get]
  | cons e rest ih =>
    obtain ⟨k, v⟩ := e
    by_cases hk : k = m
    · simp [hash_table_get, hk]
    · simp only [List.cons_append, hash_table_get, hk, if_false]
      exact ih

theorem hash_table_get_filter (table : hash_table_t) (key m : String) :
    hash_table_get (table.filter (fun e => decide (e.1 ≠ key))) m =
      if m = key then none else hash_table_get table m := by
  induction table with
  | nil => simp [hash_table_get]
  | cons e rest ih =>
    obtain ⟨k, v⟩ := e
    by_cases hk : k = key
    · subst hk
      simp only [List.filter, ne_eq, not_true_eq_false, decide_False, hash_table_get]
      rw [ih]
      by_cases hm : m = k
      · simp [hm]
      · have hm2 : ¬ k = m := fun h => hm h.symm
        simp [hm, hm2]
    · simp only [List.filter, ne_eq, hk, not_false_eq_true, decide_True, hash_table_get]
      rw [ih]
      by_cases hkm : k = m
      · have : ¬ m = key := fun h => hk (hkm.trans h)
        simp [hkm, this]
      · simp [hkm]

theorem hash_table_filter_absent (table : hash_table_t) (key : String)
    (h : hash_table_get table key = none) :
    table.filter (fun e => decide (e.1 ≠ key)) = table := by
  induction table with
  | nil => rfl
  | cons e rest ih =>
    obtain ⟨k, v⟩ := e
    simp only [hash_table_get] at h
    split_ifs at h with hk
    simp only [List.filter, ne_eq, hk, not_false_eq_true, decide_True]
    rw [ih h]

/-- C13: `macsim_station_create(n)` returns `NULL` exactly when `n` is
registered, and then leaves the table as it was; otherwise it returns and
registers a station with an empty queue and zero counters and changes no other
entry.  `macsim_station_delete(n)` returns `MACSIM_SUCCESS` exactly when `n` is
registered and `MACSIM_UNKNOWN_STATION` otherwise; afterwards `n` is not
registered and no other entry has changed.  On a table without `n`, create,
create, delete, delete return a station, `NULL`, `MACSIM_SUCCESS`,
`MACSIM_UNKNOWN_STATION`. -/
theorem macsim_station_create_delete (stations : hash_table_t) (n : String) :
    ((macsim_station_create stations n).1 = none ↔ (macsim_station_get stations n).isSome) ∧
    ((macsim_station_get stations n).isSome → (macsim_station_create stations n).2 = stations) ∧
    ((macsim_station_get stations n) = none →
      (macsim_station_create stations n).1 = some (macsim_station_new n) ∧
      macsim_station_get (macsim_station_create stations n).2 n = some (macsim_station_new n) ∧
      (macsim_station_new n).clients = [] ∧ (macsim_station_new n).total_clients = 0 ∧
      (macsim_station_new n).total_response_time = 0 ∧
      (macsim_station_new n).total_service_time = 0 ∧
      ∀ m, m ≠ n → macsim_station_get (macsim_station_create stations n).2 m =
        macsim_station_get stations m) ∧
    ((macsim_station_delete stations n).1 = MACSIM_SUCCESS ↔
      (macsim_station_get stations n).isSome) ∧
    ((macsim_station_delete stations n).1 = MACSIM_UNKNOWN_STATION ↔
      (macsim_station_get stations n) = none) ∧
    macsim_station_get (macsim_station_delete stations n).2 n = none ∧
    (∀ m, m ≠ n → macsim_station_get (macsim_station_delete stations n).2 m =
      macsim_station_get stations m) ∧
    ((macsim_station_get stations n) = none →
      (macsim_station_create stations n).1 = some (macsim_station_new n) ∧
      (macsim_station_create (macsim_station_create stations n).2 n).1 = none ∧
      (macsim_station_delete
        (macsim_station_create (macsim_station_create stations n).2 n).2 n).1 = MACSIM_SUCCESS ∧
      (macsim_station_delete (macsim_station_delete
        (macsim_station_create (macsim_station_create stations n).2 n).2 n).2 n).1 =
        MACSIM_UNKNOWN_STATION) := by
  have hdel : ∀ t : hash_table_t,
      macsim_station_delete t n =
        (if (hash_table_get t n).isSome then MACSIM_SUCCESS else MACSIM_UNKNOWN_STATION,
         t.filter (fun e => decide (e.1 ≠ n))) := by
    intro t
    simp only [macsim_station_delete, hash_table_remove]
    cases hash_table_get t n <;> rfl
  have hcre_new : ∀ t : hash_table_t, hash_table_get t n = none →
      macsim_station_create t n = (some (macsim_station_new n), t ++ [(n, macsim_station_new n)]) := by
    intro t ht
    simp [macsim_station_create, hash_table_insert, ht]
  have hcre_old : ∀ t : hash_table_t, (hash_table_get t n).isSome →
      macsim_station_create t n = (none, t) := by
    intro t ht
    cases hg : hash_table_get t n with
    | none => rw [hg] at ht; cases ht
    | some v => simp [macsim_station_create, hg]
  have hget_new : ∀ t : hash_table_t, hash_table_get t n = none →
      hash_table_get (t ++ [(n, macsim_station_new n)]) n = some (macsim_station_new n) := by
    intro t ht
    rw [hash_table_get_append, ht]
    simp
  refine ⟨?_, ?_, ?_, ?_, ?_, ?_, ?_, ?_⟩
  · cases hg : hash_table_get stations n with
    | none => simp [macsim_station_get, hcre_new stations hg, hg]
    | some v => simp [macsim_station_get, hcre_old stations (by simp [hg]), hg]
  · intro h
    rw [hcre_old stations h]
  · intro h
    rw [hcre_new stations h]
    refine ⟨rfl, hget_new stations h, rfl, rfl, rfl, rfl, ?_⟩
    intro m hm
    simp only [macsim_station_get]
    rw [hash_table_get_append]
    have hnm : ¬ n = m := fun h => hm h.symm
    cases hash_table_get stations m with
    | none => simp only [hnm, if_false]
    | some v => rfl
  · rw [hdel]
    simp only [macsim_station_get]
    cases hash_table_get stations n <;> simp [MACSIM_SUCCESS, MACSIM_UNKNOWN_STATION]
  · rw [hdel]
    simp only [macsim_station_get]
    cases hash_table_get stations n <;> simp [MACSIM_SUCCESS, MACSIM_UNKNOWN_STATION]
  · rw [hdel]
    simp only [macsim_station_get]
    rw [hash_table_get_filter]
    simp
  · intro m hm
    rw [hdel]
    simp only [macsim_station_get]
    rw [hash_table_get_filter]
    simp [hm]
  · intro h
    have h1 := hcre_new stations h
    have h2 := hcre_old (stations ++ [(n, macsim_station_new n)])
      (by rw [hget_new stations h]; rfl)
    rw [h1]
    simp only
    rw [h2]
    simp only
    rw [hdel, hdel]
    simp only
    rw [hget_new stations h, hash_table_get_filter]
    simp

/-- Witness for C13: a table that holds the station `"A"`, and the name `"X"`. -/
theorem macsim_station_create_delete_witness :
    (macsim_station_create [("A", macsim_station_new "A")] "A").2 =
      [("A", macsim_station_new "A")] ∧
    (macsim_station_create [("A", macsim_station_new "A")] "X").1 =
      some (macsim_station_new "X") ∧
    (macsim_station_delete (macsim_station_delete
      (macsim_station_create (macsim_station_create [("A", macsim_station_new "A")] "X").2
        "X").2 "X").2 "X").1 = MACSIM_UNKNOWN_STATION :=
  ⟨(macsim_station_create_delete [("A", macsim_station_new "A")] "A").2.1 rfl,
   ((macsim_station_create_delete [("A", macsim_station_new "A")] "X").2.2.1 rfl).1,
   ((macsim_station_create_delete [("A", macsim_station_new "A")] "X").2.2.2.2.2.2.2
      rfl).2.2.2⟩

theorem hash_table_get_map (table : hash_table_t) (f : macsim_station_t → macsim_station_t)
    (n : String) :
    hash_table_get (table.map (fun e => (e.1, f e.2))) n = (hash_table_get table n).map f := by
  induction table with
  | nil => rfl
  | cons e rest ih =>
    obtain ⟨k, v⟩ := e
    by_cases hk : k = n
    · simp [hash_table_get, hk]
    · simp only [List.map_cons, hash_table_get, hk, if_false]
      exact ih

/-- C14: `macsim_reset_statistics` sets `last_reset_time` to `current_time` and
leaves the clock, the event queue and the current event alone; the table keeps
the same names in the same order, and the station under every name is the
station it was with `total_clients`, `total_response_time` and
`total_service_time` set to 0: name, reschedule flag and queue are unchanged. -/
theorem macsim_reset_statistics_frame (k : Kernel) (stations : hash_table_t) :
    (macsim_reset_statistics k stations).1 =
      { current_time := k.current_time, last_reset_time := k.current_time,
        event_queue := k.event_queue, current_event := k.current_event } ∧
    (macsim_reset_statistics k stations).2.map Prod.fst = stations.map Prod.fst ∧
    (∀ n, macsim_station_get (macsim_reset_statistics k stations).2 n =
      (macsim_station_get stations n).map (fun st =>
        { name := st.name, reschedule := st.reschedule, clients := st.clients,
          total_service_time := 0, total_response_time := 0, total_clients := 0 })) := by
  refine ⟨rfl, ?_, ?_⟩
  · simp only [macsim_reset_statistics, List.map_map]
    rfl
  · intro n
    simp only [macsim_reset_statistics, macsim_station_get]
    exact hash_table_get_map stations (fun st =>
      { name := st.name, reschedule := st.reschedule, clients := st.clients,
        total_service_time := 0, total_response_time := 0, total_clients := 0 }) n

/-! ## Properties of batch-means.c -/

/-- A run over two sequences in a row is the run over the first followed by
the run over the second from the variables the first leaves. -/
theorem observaciones_append {α : Type} [LinearOrderedField α] (sqrt log : α → α)
    (s : batch_means_t α) (xs ys : List α) :
    observaciones sqrt log s (xs ++ ys) =
      ((observaciones sqrt log s xs).1 ++
          (observaciones sqrt log (observaciones sqrt log s xs).2 ys).1,
       (observaciones sqrt log (observaciones sqrt log s xs).2 ys).2) := by
  induction xs generalizing s with
  | nil => rfl
  | cons x xs ih =>
    have e := ih (observacion sqrt log s x).2
    simp only [List.cons_append, observaciones, List.append_eq, List.cons.injEq, Prod.mk.injEq,
      true_and]
    rw [e]
    exact ⟨rfl, rfl⟩

theorem observaciones_length {α : Type} [LinearOrderedField α] (sqrt log : α → α)
    (s : batch_means_t α) (xs : List α) :
    (observaciones sqrt log s xs).1.length = xs.length := by
  induction xs generalizing s with
  | nil => rfl
  | cons x xs ih =>
    simp only [observaciones, List.length_cons]
    rw [ih]

/-- While values of the transient remain, `observacion` returns 0 and only
counts the transient down. -/
theorem observaciones_transient {α : Type} [LinearOrderedField α] (sqrt log : α → α)
    (s : batch_means_t α) (xs : List α) (h : (xs.length : Int) ≤ s.transitorio) :
    observaciones sqrt log s xs =
      (List.replicate xs.length 0, { s with transitorio := s.transitorio - xs.length }) := by
  induction xs generalizing s with
  | nil =>
    simp only [observaciones, List.length_nil, List.replicate_zero, Nat.cast_zero, sub_zero]
  | cons x xs ih =>
    simp only [List.length_cons, Nat.cast_add, Nat.cast_one] at h
    have hne : s.transitorio ≠ 0 := by omega
    have hstep : observacion sqrt log s x = (0, { s with transitorio := s.transitorio - 1 }) := by
      simp only [observacion, hne, ne_eq, not_false_eq_true, if_true]
    simp only [observaciones, hstep]
    rw [ih _ (by show (xs.length : Int) ≤ s.transitorio - 1; omega)]
    simp only [List.length_cons, List.replicate_succ, Nat.cast_add, Nat.cast_one, Prod.mk.injEq,
      true_and]
    congr 1
    omega

theorem constant_stream_state_zero {α : Type} [LinearOrderedField α] (s0 : batch_means_t α)
    (b : Nat) (prec nivel c : α) :
    constant_stream_state s0 b prec nivel c 0 0 = batch_mean s0 0 b prec nivel := by
  simp [constant_stream_state, batch_mean]

theorem constant_step_in_batch {α : Type} [LinearOrderedField α] (sqrt log : α → α)
    (s0 : batch_means_t α) (b : Nat) (prec nivel c : α) (q r : Nat) (hr : r + 1 < b) :
    observacion sqrt log (constant_stream_state s0 b prec nivel c q r) c =
      (0, constant_stream_state s0 b prec nivel c q (r + 1)) := by
  have hne : ¬ ((r : Int) + 1 = (b : Int)) := by omega
  simp only [observacion, constant_stream_state, ne_eq, not_true_eq_false, if_false, hne,
    Prod.mk.injEq, true_and]
  congr 1
  push_cast
  ring

theorem constant_step_close {α : Type} [LinearOrderedField α] (sqrt log : α → α)
    (s0 : batch_means_t α) (b : Nat) (prec nivel c : α) (q r : Nat) (hr : r + 1 = b)
    (hq : q + 1 < 10) :
    observacion sqrt log (constant_stream_state s0 b prec nivel c q r) c =
      (0, constant_stream_state s0 b prec nivel c (q + 1) 0) := by
  have he : (r : Int) + 1 = (b : Int) := by omega
  have hlt : ¬ ((q : Int) + 1 ≥ 10) := by omega
  have hr0 : ((r : α) + 1) ≠ 0 := by positivity
  have hm : ((r : α) * c + c) / (((r : Int) + 1 : Int) : α) = c := by
    push_cast
    field_simp
    ring
  simp only [observacion, constant_stream_state, ne_eq, not_true_eq_false, if_false, he, if_true,
    hlt, Prod.mk.injEq, true_and]
  rw [← he, hm]
  congr 1
  · push_cast
    ring
  · push_cast
    ring
  · push_cast
    ring

theorem constant_step_last {α : Type} [LinearOrderedField α] (sqrt log : α → α)
    (s0 : batch_means_t α) (b : Nat) (prec nivel c : α) (r : Nat) (hr : r + 1 = b)
    (hs : sqrt 0 = 0) (hp : 0 ≤ prec) :
    observacion sqrt log (constant_stream_state s0 b prec nivel c 9 r) c =
      (1, { transitorio := 0, num_batches := 10, batch := b, obs := 0, suma := 0,
            gransuma := 10 * c, gransuma2 := 10 * (c * c), granmedia := c, h := 0,
            precision := prec, nivel := nivel }) := by
  have he : (r : Int) + 1 = (b : Int) := by omega
  have hr0 : ((r : α) + 1) ≠ 0 := by positivity
  have hm : ((r : α) * c + c) / (((r : Int) + 1 : Int) : α) = c := by
    push_cast
    field_simp
    ring
  have hge : ((9 : Nat) : Int) + 1 ≥ 10 := by decide
  have hgm : (((9 : Nat) : α) * c + c) / ((((9 : Nat) : Int) + 1 : Int) : α) = c := by
    push_cast
    field_simp
    ring
  have hvar : (((9 : Nat) : α) * (c * c) + c * c - ((((9 : Nat) : Int) + 1 : Int) : α) * c * c) /
      ((((9 : Nat) : Int) + 1 - 1 : Int) : α) = 0 := by
    push_cast
    ring
  simp only [observacion, constant_stream_state, ne_eq, not_true_eq_false, if_false, he, if_true,
    hge]
  rw [← he, hm, hgm, hvar]
  simp only [zero_div, hs, mul_zero, hp, if_true, Prod.mk.injEq, true_and]
  congr 1
  · push_cast
    ring
  · push_cast
    ring

theorem constant_run_in_batch {α : Type} [LinearOrderedField α] (sqrt log : α → α)
    (s0 : batch_means_t α) (b : Nat) (prec nivel c : α) (q j r : Nat) (hr : r + j < b) :
    observaciones sqrt log (constant_stream_state s0 b prec nivel c q r) (List.replicate j c) =
      (List.replicate j 0, constant_stream_state s0 b prec nivel c q (r + j)) := by
  induction j generalizing r with
  | zero => rfl
  | succ j ih =>
    simp only [List.replicate_succ, observaciones]
    rw [constant_step_in_batch sqrt log s0 b prec nivel c q r (by omega)]
    simp only
    rw [ih (r + 1) (by omega)]
    simp only [Prod.mk.injEq, true_and]
    congr 1
    omega

theorem constant_run_batch {α : Type} [LinearOrderedField α] (sqrt log : α → α)
    (s0 : batch_means_t α) (b : Nat) (prec nivel c : α) (q : Nat) (hb : 1 ≤ b)
    (hq : q + 1 < 10) :
    observaciones sqrt log (constant_stream_state s0 b prec nivel c q 0) (List.replicate b c) =
      (List.replicate b 0, constant_stream_state s0 b prec nivel c (q + 1) 0) := by
  obtain ⟨r, rfl⟩ : ∃ r, b = r + 1 := ⟨b - 1, by omega⟩
  rw [List.replicate_succ', observaciones_append,
    constant_run_in_batch sqrt log s0 (r + 1) prec nivel c q r 0 (by omega)]
  simp only [zero_add, observaciones]
  rw [constant_step_close sqrt log s0 (r + 1) prec nivel c q r rfl hq]
  simp only [List.replicate_succ']

theorem constant_run_batches {α : Type} [LinearOrderedField α] (sqrt log : α → α)
    (s0 : batch_means_t α) (b : Nat) (prec nivel c : α) (q : Nat) (hb : 1 ≤ b) (hq : q < 10) :
    observaciones sqrt log (constant_stream_state s0 b prec nivel c 0 0)
        (List.replicate (q * b) c) =
      (List.replicate (q * b) 0, constant_stream_state s0 b prec nivel c q 0) := by
  induction q with
  | zero => simp [observaciones]
  | succ q ih =>
    rw [Nat.succ_mul, List.replicate_add, observaciones_append, ih (by omega)]
    simp only
    rw [constant_run_batch sqrt log s0 b prec nivel c q hb (by omega)]
    simp only [List.replicate_add]

/-- Fed the constant `c` from the variables that `batch_mean(0, b, prec, nivel)`
sets, `observacion` returns 0 on the first `10 b - 1` calls and 1 on call
`10 b`, which leaves a grand mean of `c`, a half-width of 0 and 10 batches. -/
theorem constant_run_all {α : Type} [LinearOrderedField α] (sqrt log : α → α)
    (s0 : batch_means_t α) (b : Nat) (prec nivel c : α) (hb : 1 ≤ b)
    (hs : sqrt 0 = 0) (hp : 0 ≤ prec) :
    observaciones sqrt log (batch_mean s0 0 b prec nivel) (List.replicate (10 * b) c) =
      (List.replicate (10 * b - 1) 0 ++ [1],
       { transitorio := 0, num_batches := 10, batch := b, obs := 0, suma := 0,
         gransuma := 10 * c, gransuma2 := 10 * (c * c), granmedia := c, h := 0,
         precision := prec, nivel := nivel }) := by
  obtain ⟨r, rfl⟩ : ∃ r, b = r + 1 := ⟨b - 1, by omega⟩
  have e1 : 10 * (r + 1) = 9 * (r + 1) + (r + 1) := by omega
  have e2 : 10 * (r + 1) - 1 = 9 * (r + 1) + r := by omega
  rw [← constant_stream_state_zero s0 (r + 1) prec nivel c, e2, e1, List.replicate_add,
    observaciones_append,
    constant_run_batches sqrt log s0 (r + 1) prec nivel c 9 hb (by decide)]
  simp only
  rw [List.replicate_succ', observaciones_append,
    constant_run_in_batch sqrt log s0 (r + 1) prec nivel c 9 r 0 (by omega)]
  simp only [zero_add, observaciones]
  rw [constant_step_last sqrt log s0 (r + 1) prec nivel c r rfl hs hp]
  simp only [List.replicate_add, List.append_assoc]

/-- C17: in exact arithmetic, for a constant `c > 0`, a batch size `b ≥ 1`, a
transient `t`, a precision `prec ≥ 0` and a confidence level in (0,1), feeding
`c` after `batch_mean(t, b, prec, nivel)` makes `observacion` return 0 on each
of the first `t + 10 b - 1` calls and 1 on call `t + 10 b`; then the grand mean
is `c`, the half-width 0 and `num_batches` 10.  The square root is any function
with `sqrt 0 = 0`. -/
theorem observacion_constant_stream {α : Type} [LinearOrderedField α] (sqrt log : α → α)
    (s0 : batch_means_t α) (t b : Nat) (prec nivel c : α) (hb : 1 ≤ b) (hc : 0 < c)
    (hp : 0 ≤ prec) (hn0 : 0 < nivel) (hn1 : nivel < 1) (hs : sqrt 0 = 0) :
    (observaciones sqrt log (batch_mean s0 t b prec nivel) (List.replicate (t + 10 * b) c)).1 =
      List.replicate (t + 10 * b - 1) 0 ++ [1] ∧
    (observaciones sqrt log (batch_mean s0 t b prec nivel)
      (List.replicate (t + 10 * b) c)).2.granmedia = c ∧
    (observaciones sqrt log (batch_mean s0 t b prec nivel)
      (List.replicate (t + 10 * b) c)).2.h = 0 ∧
    (observaciones sqrt log (batch_mean s0 t b prec nivel)
      (List.replicate (t + 10 * b) c)).2.num_batches = 10 ∧
    resultado (observaciones sqrt log (batch_mean s0 t b prec nivel)
      (List.replicate (t + 10 * b) c)).2 = (c, 0, 10) := by
  have ht : observaciones sqrt log (batch_mean s0 t b prec nivel) (List.replicate t c) =
      (List.replicate t 0, batch_mean s0 0 b prec nivel) := by
    rw [observaciones_transient sqrt log _ _ (by simp [batch_mean])]
    simp [batch_mean]
  have hall := constant_run_all sqrt log s0 b prec nivel c hb hs hp
  have hrun : observaciones sqrt log (batch_mean s0 t b prec nivel)
      (List.replicate (t + 10 * b) c) =
      (List.replicate (t + 10 * b - 1) 0 ++ [1],
       { transitorio := 0, num_batches := 10, batch := b, obs := 0, suma := 0,
         gransuma := 10 * c, gransuma2 := 10 * (c * c), granmedia := c, h := 0,
         precision := prec, nivel := nivel }) := by
    have e : t + 10 * b - 1 = t + (10 * b - 1) := by omega
    rw [List.replicate_add, observaciones_append, ht, hall, e, List.replicate_add,
      List.append_assoc]
  rw [hrun]
  exact ⟨rfl, rfl, rfl, rfl, rfl⟩

/-- Witness for C17: over the reals, `batch_mean(0, 100, 0.01, 0.95)` and the
constant 7: the first 999 calls return 0, call 1000 returns 1, with a grand
mean of 7 and a half-width of 0. -/
theorem observacion_constant_stream_witness :
    (observaciones Real.sqrt Real.log
      (batch_mean (batch_means_zero : batch_means_t ℝ) (0 : Nat) (100 : Nat) (1 / 100) (95 / 100))
      (List.replicate (0 + 10 * 100) 7)).1 = List.replicate (0 + 10 * 100 - 1) 0 ++ [1] ∧
    (observaciones Real.sqrt Real.log
      (batch_mean (batch_means_zero : batch_means_t ℝ) (0 : Nat) (100 : Nat) (1 / 100) (95 / 100))
      (List.replicate (0 + 10 * 100) 7)).2.granmedia = 7 ∧
    (observaciones Real.sqrt Real.log
      (batch_mean (batch_means_zero : batch_means_t ℝ) (0 : Nat) (100 : Nat) (1 / 100) (95 / 100))
      (List.replicate (0 + 10 * 100) 7)).2.h = 0 :=
  have w := observacion_constant_stream Real.sqrt Real.log (batch_means_zero : batch_means_t ℝ)
    0 100 (1 / 100) (95 / 100) 7 (by decide) (by norm_num) (by norm_num) (by norm_num)
    (by norm_num) Real.sqrt_zero
  ⟨w.1, w.2.1, w.2.2.1⟩

/-- C18: with a transient of `n` values, feeding `n` values `xs` and then `ys`
returns 0 for every element of `xs` and leaves the variables that
`batch_mean(0, b, p, c)` sets; the returned values on `ys`, the final variables
and `resultado` are those of `batch_mean(0, b, p, c)` fed `ys` alone. -/
theorem observacion_transient_discard {α : Type} [LinearOrderedField α] (sqrt log : α → α)
    (s0 : batch_means_t α) (n : Nat) (b : Int) (p c : α) (xs ys : List α)
    (hn : xs.length = n) :
    observaciones sqrt log (batch_mean s0 n b p c) xs =
      (List.replicate n 0, batch_mean s0 0 b p c) ∧
    observaciones sqrt log (batch_mean s0 n b p c) (xs ++ ys) =
      (List.replicate n 0 ++ (observaciones sqrt log (batch_mean s0 0 b p c) ys).1,
       (observaciones sqrt log (batch_mean s0 0 b p c) ys).2) ∧
    resultado (observaciones sqrt log (batch_mean s0 n b p c) (xs ++ ys)).2 =
      resultado (observaciones sqrt log (batch_mean s0 0 b p c) ys).2 := by
  have h1 : observaciones sqrt log (batch_mean s0 n b p c) xs =
      (List.replicate n 0, batch_mean s0 0 b p c) := by
    rw [observaciones_transient sqrt log _ xs (by simp [batch_mean, hn]), hn]
    simp [batch_mean]
  have h2 : observaciones sqrt log (batch_mean s0 n b p c) (xs ++ ys) =
      (List.replicate n 0 ++ (observaciones sqrt log (batch_mean s0 0 b p c) ys).1,
       (observaciones sqrt log (batch_mean s0 0 b p c) ys).2) := by
    rw [observaciones_append, h1]
  exact ⟨h1, h2, by rw [h2]⟩

/-- Witness for C18: over the reals, `batch_mean(50, 10, 0.01, 0.95)` fed 50
zeros and then 100 fives behaves on the fives as `batch_mean(0, 10, 0.01, 0.95)`
does, and ends with `num_batches = 10` and a grand mean of 5. -/
theorem observacion_transient_discard_witness :
    observaciones Real.sqrt Real.log
        (batch_mean (batch_means_zero : batch_means_t ℝ) (50 : Nat) 10 (1 / 100) (95 / 100))
        (List.replicate 50 0 ++ List.replicate 100 5) =
      (List.replicate 50 0 ++ (observaciones Real.sqrt Real.log
          (batch_mean (batch_means_zero : batch_means_t ℝ) 0 10 (1 / 100) (95 / 100))
          (List.replicate 100 5)).1,
       (observaciones Real.sqrt Real.log
          (batch_mean (batch_means_zero : batch_means_t ℝ) 0 10 (1 / 100) (95 / 100))
          (List.replicate 100 5)).2) ∧
    (observaciones Real.sqrt Real.log
        (batch_mean (batch_means_zero : batch_means_t ℝ) (50 : Nat) 10 (1 / 100) (95 / 100))
        (List.replicate 50 0 ++ List.replicate 100 5)).2.num_batches = 10 ∧
    (observaciones Real.sqrt Real.log
        (batch_mean (batch_means_zero : batch_means_t ℝ) (50 : Nat) 10 (1 / 100) (95 / 100))
        (List.replicate 50 0 ++ List.replicate 100 5)).2.granmedia = 5 := by
  have w := (observacion_transient_discard Real.sqrt Real.log
    (batch_means_zero : batch_means_t ℝ) 50 10 (1 / 100) (95 / 100)
    (List.replicate 50 0) (List.replicate 100 5) (by simp)).2.1
  have hall := constant_run_all Real.sqrt Real.log (batch_means_zero : batch_means_t ℝ) 10
    (1 / 100) (95 / 100) 5 (by decide) Real.sqrt_zero (by norm_num)
  have e : (10 * 10 : Nat) = 100 := by decide
  rw [e] at hall
  refine ⟨w, ?_, ?_⟩
  · rw [w]
    simp only [Nat.cast_ofNat, Nat.cast_zero] at hall ⊢
    rw [hall]
  · rw [w]
    simp only [Nat.cast_ofNat, Nat.cast_zero] at hall ⊢
    rw [hall]

/-- After the transient, one call of `observacion` either adds a value to the
open batch or closes it: with `q` complete batches and `r < b` values in the
open one before the call, the counts afterwards are `q2` and `r2 < b` with
`q2 * b + r2 = q * b + r + 1`. -/
theorem observacion_counts {α : Type} [LinearOrderedField α] (sqrt log : α → α)
    (s : batch_means_t α) (valor : α) (b q r : Nat) (ht : s.transitorio = 0)
    (hb : s.batch = b) (ho : s.obs = r) (hr : r < b) (hq : s.num_batches = q) :
    ∃ q2 r2 : Nat, r2 < b ∧ q2 * b + r2 = q * b + r + 1 ∧
      (observacion sqrt log s valor).2.transitorio = 0 ∧
      (observacion sqrt log s valor).2.batch = b ∧
      (observacion sqrt log s valor).2.obs = r2 ∧
      (observacion sqrt log s valor).2.num_batches = q2 := by
  by_cases hc : r + 1 = b
  · have he : s.obs + 1 = s.batch := by rw [ho, hb]; omega
    refine ⟨q + 1, 0, by omega, by rw [Nat.succ_mul]; omega, ?_⟩
    simp only [observacion, ht, ne_eq, not_true_eq_false, if_false, he, if_true]
    split_ifs <;> simp [hb, hq]
  · have he : ¬ (s.obs + 1 = s.batch) := by rw [ho, hb]; omega
    refine ⟨q, r + 1, by omega, by omega, ?_⟩
    simp only [observacion, ht, ne_eq, not_true_eq_false, if_false, he]
    simp [ht, hb, ho, hq]

theorem observaciones_counts {α : Type} [LinearOrderedField α] (sqrt log : α → α)
    (vals : List α) (s : batch_means_t α) (b q r : Nat) (ht : s.transitorio = 0)
    (hb : s.batch = b) (ho : s.obs = r) (hr : r < b) (hq : s.num_batches = q) :
    ∃ q2 r2 : Nat, r2 < b ∧ q2 * b + r2 = q * b + r + vals.length ∧
      (observaciones sqrt log s vals).2.transitorio = 0 ∧
      (observaciones sqrt log s vals).2.batch = b ∧
      (observaciones sqrt log s vals).2.obs = r2 ∧
      (observaciones sqrt log s vals).2.num_batches = q2 := by
  induction vals generalizing s q r with
  | nil => exact ⟨q, r, hr, rfl, ht, hb, ho, hq⟩
  | cons v vs ih =>
    obtain ⟨q1, r1, hr1, hsum1, ht1, hb1, ho1, hq1⟩ :=
      observacion_counts sqrt log s v b q r ht hb ho hr hq
    obtain ⟨q2, r2, hr2, hsum2, ht2, hb2, ho2, hq2⟩ :=
      ih (observacion sqrt log s v).2 q1 r1 ht1 hb1 ho1 hr1 hq1
    refine ⟨q2, r2, hr2, ?_, ht2, hb2, ho2, hq2⟩
    simp only [List.length_cons]
    omega

/-- C16: after `batch_mean` with a transient `t ≥ 0` and a batch size `b ≥ 1`
and `N` calls of `observacion`, whatever the values, `num_batches` is the
quotient of `max(N - t, 0)` by `b` and the in-batch count is the remainder, so
it is below `b`. -/
theorem observacion_batch_count {α : Type} [LinearOrderedField α] (sqrt log : α → α)
    (s0 : batch_means_t α) (t b : Nat) (prec nivel : α) (vals : List α) (hb : 1 ≤ b) :
    (observaciones sqrt log (batch_mean s0 t b prec nivel) vals).2.num_batches =
      (((vals.length - t) / b : Nat) : Int) ∧
    (observaciones sqrt log (batch_mean s0 t b prec nivel) vals).2.obs =
      (((vals.length - t) % b : Nat) : Int) ∧
    (observaciones sqrt log (batch_mean s0 t b prec nivel) vals).2.obs < b := by
  rcases Nat.lt_or_ge t vals.length with hlt | hge
  · have hsplit : vals = vals.take t ++ vals.drop t := (List.take_append_drop t vals).symm
    have hlen : (vals.take t).length = t := by
      rw [List.length_take]
      omega
    have h1 : observaciones sqrt log (batch_mean s0 t b prec nivel) (vals.take t) =
        (List.replicate t 0, batch_mean s0 0 b prec nivel) := by
      rw [observaciones_transient sqrt log _ _ (by simp [batch_mean, hlen]), hlen]
      simp [batch_mean]
    obtain ⟨q2, r2, hr2, hsum, -, -, ho2, hq2⟩ :=
      observaciones_counts sqrt log (vals.drop t) (batch_mean s0 0 b prec nivel) b 0 0
        rfl rfl rfl (by omega) rfl
    rw [List.length_drop] at hsum
    have hdiv : (vals.length - t) / b = q2 := by
      rw [← show q2 * b + r2 = vals.length - t by omega, Nat.mul_comm,
        Nat.mul_add_div (by omega), Nat.div_eq_of_lt hr2, Nat.add_zero]
    have hmod : (vals.length - t) % b = r2 := by
      rw [← show q2 * b + r2 = vals.length - t by omega, Nat.mul_comm, Nat.mul_add_mod,
        Nat.mod_eq_of_lt hr2]
    have hrun : observaciones sqrt log (batch_mean s0 t b prec nivel) vals =
        (List.replicate t 0 ++
            (observaciones sqrt log (batch_mean s0 0 b prec nivel) (vals.drop t)).1,
         (observaciones sqrt log (batch_mean s0 0 b prec nivel) (vals.drop t)).2) := by
      conv_lhs => rw [hsplit]
      rw [observaciones_append, h1]
    rw [hrun, hdiv, hmod]
    refine ⟨hq2, ho2, ?_⟩
    show (observaciones sqrt log (batch_mean s0 0 b prec nivel) (vals.drop t)).2.obs < b
    rw [ho2]
    exact_mod_cast hr2
  · have h1 := observaciones_transient sqrt log (batch_mean s0 t b prec nivel) vals
      (by simp [batch_mean]; exact_mod_cast hge)
    have hz : vals.length - t = 0 := by omega
    rw [h1, hz, Nat.zero_div, Nat.zero_mod]
    refine ⟨rfl, rfl, ?_⟩
    show ((0 : Int)) < (b : Int)
    exact_mod_cast hb

/-- Witness for C16: a transient of 2, batches of 3 and 10 values: two batches
are complete and two values are in the third. -/
theorem observacion_batch_count_witness :
    (observaciones Real.sqrt Real.log
      (batch_mean (batch_means_zero : batch_means_t ℝ) (2 : Nat) (3 : Nat) (1 / 100) (95 / 100))
      [1, 2, 3, 4, 5, 6, 7, 8, 9, 10]).2.num_batches =
      ((([1, 2, 3, 4, 5, 6, 7, 8, 9, (10 : ℝ)].length - 2) / 3 : Nat) : Int) ∧
    (observaciones Real.sqrt Real.log
      (batch_mean (batch_means_zero : batch_means_t ℝ) (2 : Nat) (3 : Nat) (1 / 100) (95 / 100))
      [1, 2, 3, 4, 5, 6, 7, 8, 9, 10]).2.obs =
      ((([1, 2, 3, 4, 5, 6, 7, 8, 9, (10 : ℝ)].length - 2) % 3 : Nat) : Int) :=
  have w := observacion_batch_count Real.sqrt Real.log (batch_means_zero : batch_means_t ℝ)
    2 3 (1 / 100) (95 / 100) [1, 2, 3, 4, 5, 6, 7, 8, 9, 10] (by decide)
  ⟨w.1, w.2.1⟩

theorem div_ge_neg_of_one_le {α : Type} [LinearOrderedField α] (a c n : α) (hn : 1 ≤ n)
    (hc : 0 ≤ c) (ha : -c ≤ a) : -c ≤ a / n := by
  have hn0 : 0 < n := lt_of_lt_of_le one_pos hn
  rw [le_div_iff₀ hn0]
  nlinarith [mul_nonneg hc (sub_nonneg.2 hn)]

theorem nested_div_nonneg {α : Type} [LinearOrderedField α] (H0 H1 H2 H3 z n : α)
    (hz : 0 ≤ z) (hn : 1 ≤ n) (h3 : -(0.02 * z) ≤ H3) (h2 : -(0.04 * z) ≤ H2) (h1 : 0 ≤ H1)
    (h0 : 0.25 * z ≤ H0) :
    0 ≤ ((((0.0 + H3) / n + H2) / n + H1) / n + H0) / n := by
  have hn0 : 0 < n := lt_of_lt_of_le one_pos hn
  have e0 : (0.0 : α) = 0 := by norm_num
  have a1 : -(0.02 * z) ≤ (0.0 + H3) / n :=
    div_ge_neg_of_one_le (0.0 + H3) (0.02 * z) n hn (by positivity) (by rw [e0]; linarith)
  have a2 : -(0.06 * z) ≤ ((0.0 + H3) / n + H2) / n :=
    div_ge_neg_of_one_le _ (0.06 * z) n hn (by positivity) (by linarith)
  have a3 : -(0.06 * z) ≤ (((0.0 + H3) / n + H2) / n + H1) / n :=
    div_ge_neg_of_one_le _ (0.06 * z) n hn (by positivity) (by linarith)
  exact div_nonneg (by linarith) hn0.le

/-- The correction that `T` adds to `|Z(p)|` is not negative for `ndf ≥ 1`. -/
theorem T_correction_nonneg {α : Type} [LinearOrderedField α] (z n : α) (hz : 0 ≤ z)
    (hn : 1 ≤ n) :
    0 ≤ ((((0.0 + 0.000010851 * z *
              ((((79.0 * (z * z) + 776.0) * (z * z) + 1482.0) * (z * z) - 1920.0) * (z * z) - 945.0)) / n +
            0.002604167 * z * (((3.0 * (z * z) + 19.0) * (z * z) + 17.0) * (z * z) - 15.0)) / n +
          0.010416667 * z * ((5.0 * (z * z) + 16.0) * (z * z) + 3.0)) / n +
        0.25 * z * (z * z + 1.0)) / n := by
  have ht : 0 ≤ z * z := mul_nonneg hz hz
  apply nested_div_nonneg _ _ _ _ z n hz hn
  · have hq : -1600 ≤ (((79.0 * (z * z) + 776.0) * (z * z) + 1482.0) * (z * z) - 1920.0) * (z * z)
        - 945.0 := by
      nlinarith [sq_nonneg (z * z - 0.65), mul_nonneg ht ht, mul_nonneg (mul_nonneg ht ht) ht,
        mul_nonneg (mul_nonneg ht ht) (mul_nonneg ht ht)]
    nlinarith [mul_nonneg hz (sub_nonneg.2 hq)]
  · have hq : -15 ≤ ((3.0 * (z * z) + 19.0) * (z * z) + 17.0) * (z * z) - 15.0 := by
      nlinarith [mul_nonneg ht ht, mul_nonneg (mul_nonneg ht ht) ht]
    nlinarith [mul_nonneg hz (sub_nonneg.2 hq)]
  · positivity
  · nlinarith [mul_nonneg hz ht]

/-- For `p ≤ 0.5` and `ndf ≥ 1`, `T(p, ndf)` is at least `|Z(p)|`. -/
theorem T_ge_abs_Z {α : Type} [LinearOrderedField α] (sqrt log : α → α) (p : α) (ndf : Int)
    (hp : p ≤ 0.5) (hn : 1 ≤ ndf) : abs (Z sqrt log p) ≤ T sqrt log p ndf := by
  have hnp : ¬ (p > 0.5) := not_lt.2 hp
  have hn1 : (1 : α) ≤ (ndf : α) := by exact_mod_cast hn
  have hx := T_correction_nonneg (abs (Z sqrt log p)) (ndf : α) (abs_nonneg _) hn1
  simp only [T, hnp, if_false]
  linarith

theorem Z_one_sub_of_lt {α : Type} [LinearOrderedField α] (sqrt log : α → α) (p : α)
    (hp : p < 0.5) : Z sqrt log (1 - p) = -Z sqrt log p := by
  have h1 : (1 - p) > 0.5 := by
    have : (0.5 : α) + 0.5 = 1 := by norm_num
    show 0.5 < 1 - p
    linarith
  have h2 : ¬ (p > 0.5) := not_lt.2 hp.le
  simp only [Z, h1, h2, if_true, if_false, sub_sub_cancel]

theorem T_one_sub_of_lt {α : Type} [LinearOrderedField α] (sqrt log : α → α) (p : α)
    (ndf : Int) (hp : p < 0.5) : T sqrt log (1 - p) ndf = -T sqrt log p ndf := by
  have h1 : (1 - p) > 0.5 := by
    have : (0.5 : α) + 0.5 = 1 := by norm_num
    show 0.5 < 1 - p
    linarith
  have h2 : ¬ (p > 0.5) := not_lt.2 hp.le
  simp only [T, h1, h2, if_true, if_false, Z_one_sub_of_lt sqrt log p hp, abs_neg]

/-- Away from `p = 0.5` the function `T` is odd about 0.5. -/
theorem T_one_sub {α : Type} [LinearOrderedField α] (sqrt log : α → α) (p : α) (ndf : Int)
    (hp : p ≠ 0.5) : T sqrt log p ndf + T sqrt log (1 - p) ndf = 0 := by
  rcases lt_or_gt_of_ne hp with h | h
  · rw [T_one_sub_of_lt sqrt log p ndf h]
    ring
  · have h' : 1 - p < 0.5 := by
      have : (0.5 : α) + 0.5 = 1 := by norm_num
      have h0 : 0.5 < p := h
      linarith
    have e := T_one_sub_of_lt sqrt log (1 - p) ndf h'
    rw [sub_sub_cancel] at e
    rw [e]
    ring

theorem log_half : Real.log (0.5 : ℝ) = -Real.log 2 := by
  have e : (0.5 : ℝ) = 2⁻¹ := by norm_num
  rw [e, Real.log_inv]

/-- Over the reals `Z(0.5)` is not 0: the approximation is off by more than
`10^-6` there. -/
theorem Z_half_le : Z Real.sqrt Real.log (0.5 : ℝ) ≤ -(1 / 1000000) := by
  have hnp : ¬ ((0.5 : ℝ) > 0.5) := lt_irrefl _
  simp only [Z, hnp, if_false, log_half]
  have hl := Real.log_two_lt_d9
  have hl0 := Real.log_two_gt_d9
  have hs0 : 0 ≤ Real.sqrt (-2.0 * -Real.log 2) := Real.sqrt_nonneg _
  have hs1 : Real.sqrt (-2.0 * -Real.log 2) ≤ 1.177411 := by
    rw [Real.sqrt_le_iff]
    constructor
    · norm_num
    · norm_num
      linarith
  generalize Real.sqrt (-2.0 * -Real.log 2) = s at hs0 hs1 ⊢
  have h2 : s ^ 2 ≤ 1.177411 ^ 2 := pow_le_pow_left₀ hs0 hs1 2
  have h3 : s ^ 3 ≤ 1.177411 ^ 3 := pow_le_pow_left₀ hs0 hs1 3
  have h4 : s ^ 4 ≤ 1.177411 ^ 4 := pow_le_pow_left₀ hs0 hs1 4
  have hd : 0 < ((0.001308 * s + 0.189269) * s + 1.43278) * s + 1 := by positivity
  have hd3 : ((0.001308 * s + 0.189269) * s + 1.43278) * s + 1 ≤ 3 := by
    norm_num at h2 h3 ⊢
    nlinarith
  rw [sub_le_iff_le_add, ← sub_le_iff_le_add', le_div_iff₀ hd]
  norm_num at h2 h3 h4 ⊢
  nlinarith

/-- C19, as stated, fails at `p = 0.5`: over the reals `T(0.5, 1) + T(1 - 0.5, 1)`
is above `10^-6`, not within `10^-9` of 0. -/
theorem T_not_antisymmetric_at_half :
    ¬ (abs (T Real.sqrt Real.log (0.5 : ℝ) 1 + T Real.sqrt Real.log (1 - 0.5 : ℝ) 1) ≤ 1e-9) := by
  have e : (1 : ℝ) - 0.5 = 0.5 := by norm_num
  have hT := T_ge_abs_Z Real.sqrt Real.log (0.5 : ℝ) 1 (le_refl _) (le_refl _)
  have hZ : 1 / 1000000 ≤ abs (Z Real.sqrt Real.log (0.5 : ℝ)) := by
    rw [abs_of_nonpos (by linarith [Z_half_le])]
    linarith [Z_half_le]
  rw [e, not_le]
  have hpos : 0 ≤ T Real.sqrt Real.log (0.5 : ℝ) 1 + T Real.sqrt Real.log (0.5 : ℝ) 1 := by
    linarith
  rw [abs_of_nonneg hpos]
  norm_num
  linarith

/-- C19, amended: over the reals, for `0 < p < 1` with `p ≠ 0.5` and `ndf ≥ 1`,
`T(p, ndf) + T(1 - p, ndf)` is exactly 0, so within `10^-9` of 0. -/
theorem T_antisymmetric (p : ℝ) (ndf : Int) (hp0 : 0 < p) (hp1 : p < 1) (hne : p ≠ 0.5)
    (hn : 1 ≤ ndf) :
    T Real.sqrt Real.log p ndf + T Real.sqrt Real.log (1 - p) ndf = 0 ∧
    abs (T Real.sqrt Real.log p ndf + T Real.sqrt Real.log (1 - p) ndf) ≤ 1e-9 := by
  have h := T_one_sub Real.sqrt Real.log p ndf hne
  refine ⟨h, ?_⟩
  rw [h, abs_zero]
  norm_num

/-- Witness for C19: `p = 0.025` and 9 degrees of freedom. -/
theorem T_antisymmetric_witness :
    T Real.sqrt Real.log (0.025 : ℝ) 9 + T Real.sqrt Real.log (1 - 0.025 : ℝ) 9 = 0 ∧
    abs (T Real.sqrt Real.log (0.025 : ℝ) 9 + T Real.sqrt Real.log (1 - 0.025 : ℝ) 9) ≤ 1e-9 :=
  T_antisymmetric 0.025 9 (by norm_num) (by norm_num) (by norm_num) (by decide)

/-- C15: after an analysis of ten sevens with batches of one value,
`batch_mean(0, 100, 0.01, 0.95)` leaves the grand mean 7 of that analysis in
place and `resultado` returns it; called on the variables at program start, the
same `batch_mean` leaves a grand mean of 0.  The variables after `batch_mean`
are therefore not determined by its four arguments. -/
theorem batch_mean_keeps_grand_mean :
    resultado (batch_mean
      (observaciones Real.sqrt Real.log
        (batch_mean (batch_means_zero : batch_means_t ℝ) 0 1 (1 / 100) (95 / 100))
        (List.replicate 10 7)).2 0 100 (1 / 100) (95 / 100)) = (7, 0, 0) ∧
    resultado (batch_mean (batch_means_zero : batch_means_t ℝ) 0 100 (1 / 100) (95 / 100)) =
      (0, 0, 0) ∧
    batch_mean
      (observaciones Real.sqrt Real.log
        (batch_mean (batch_means_zero : batch_means_t ℝ) 0 1 (1 / 100) (95 / 100))
        (List.replicate 10 7)).2 0 100 (1 / 100) (95 / 100) ≠
      batch_mean (batch_means_zero : batch_means_t ℝ) 0 100 (1 / 100) (95 / 100) := by
  have hall := constant_run_all Real.sqrt Real.log (batch_means_zero : batch_means_t ℝ) 1
    (1 / 100) (95 / 100) 7 (by decide) Real.sqrt_zero (by norm_num)
  have e : (10 * 1 : Nat) = 10 := by decide
  rw [e] at hall
  simp only [Nat.cast_one, Nat.cast_zero] at hall
  rw [hall]
  refine ⟨by simp [resultado, batch_mean, long_long_to_int], ?_, ?_⟩
  · simp [resultado, batch_mean, batch_means_zero, long_long_to_int]
  · intro h
    have hg := congrArg batch_means_t.granmedia h
    simp [batch_mean, batch_means_zero] at hg

/-- What `batch_mean` assigns: its four arguments, and zero to the in-batch
count and sum, `num_batches`, the grand sum and the grand sum of squares.  It
assigns neither the grand mean nor the half-width, so `resultado` called
immediately afterwards returns the values they had, with a batch count of 0. -/
theorem batch_mean_resets {α : Type} [LinearOrderedField α] (s : batch_means_t α)
    (obs_trans tam_batch : Int) (precis nivelconf : α) :
    batch_mean s obs_trans tam_batch precis nivelconf =
      { transitorio := obs_trans, num_batches := 0, batch := tam_batch, obs := 0, suma := 0,
        gransuma := 0, gransuma2 := 0, granmedia := s.granmedia, h := s.h,
        precision := precis, nivel := nivelconf } ∧
    resultado (batch_mean s obs_trans tam_batch precis nivelconf) = (s.granmedia, s.h, 0) := by
  refine ⟨rfl, ?_⟩
  simp only [resultado, batch_mean, Prod.mk.injEq, true_and]
  decide

/-! ## The by-name request, the host trace and the report (macsim.c) -/

/-- C21: for a registered name, `macsim_station_request2(name, c)` gives the
result of `macsim_station_request(macsim_station_get(name), c)`, code and
station, when the handoff condition holds or no record in the queue has id `c`;
when the handoff condition does not hold and a record has id `c` it aborts, and
it aborts when the name is not registered. -/
theorem macsim_station_request2_refines (k : Kernel) (stations : hash_table_t) (name : String)
    (c : Int) :
    (∀ station, macsim_station_get stations name = some station →
      (macsim_station_is_handoff station c = true ∨ ∀ cl ∈ station.clients, cl.id ≠ c) →
      macsim_station_request2 k stations name c =
        macsim_station_request k (macsim_station_get stations name) c) ∧
    (∀ station, macsim_station_get stations name = some station →
      macsim_station_is_handoff station c = false →
      (∃ cl ∈ station.clients, cl.id = c) →
      macsim_station_request2 k stations name c =
        .error (Failure.fatal "macsim_station_request2: client already in queue")) ∧
    (macsim_station_get stations name = none →
      macsim_station_request2 k stations name c =
        .error (Failure.fatal "macsim_station_request2: unknown station")) := by
  have hscan_ok : ∀ station : macsim_station_t, (∀ cl ∈ station.clients, cl.id ≠ c) →
      macsim_station_scan_enqueue k station c = .ok (macsim_station_enqueue k station c) := by
    intro station hno
    have hany : station.clients.any (fun client => decide (client.id = c)) = false := by
      rw [List.any_eq_false]
      intro cl hcl
      simpa using hno cl hcl
    simp only [macsim_station_scan_enqueue, hany, Bool.false_eq_true, if_false]
  have hscan_dup : ∀ station : macsim_station_t, (∃ cl ∈ station.clients, cl.id = c) →
      macsim_station_scan_enqueue k station c =
        .error (Failure.fatal "macsim_station_request2: client already in queue") := by
    intro station hdup
    have hany : station.clients.any (fun client => decide (client.id = c)) = true := by
      rw [List.any_eq_true]
      obtain ⟨cl, hcl, hid⟩ := hdup
      exact ⟨cl, hcl, by simpa using hid⟩
    simp only [macsim_station_scan_enqueue, hany, if_true]
  refine ⟨?_, ?_, ?_⟩
  · intro station hget hcond
    simp only [macsim_station_request2, macsim_station_request, hget]
    rcases Bool.eq_false_or_eq_true station.reschedule with hf | hf
    · cases hq : station.clients with
      | nil => simp only [hf, if_true]
      | cons h rest =>
        by_cases hid : h.id = c
        · simp only [hf, if_true, hid]
        · have hno : ∀ cl ∈ station.clients, cl.id ≠ c := by
            rcases hcond with hh | hno
            · simp [macsim_station_is_handoff, hf, hq, hid] at hh
            · exact hno
          simp only [hf, if_true, hid, if_false]
          rw [← hq] at *
          exact hscan_ok station hno
    · have hno : ∀ cl ∈ station.clients, cl.id ≠ c := by
        rcases hcond with hh | hno
        · simp [macsim_station_is_handoff, hf] at hh
        · exact hno
      simp only [hf, Bool.false_eq_true, if_false]
      exact hscan_ok station hno
  · intro station hget hnh hdup
    simp only [macsim_station_request2, hget]
    rcases Bool.eq_false_or_eq_true station.reschedule with hf | hf
    · cases hq : station.clients with
      | nil =>
        obtain ⟨cl, hcl, -⟩ := hdup
        rw [hq] at hcl
        cases hcl
      | cons h rest =>
        have hid : ¬ h.id = c := by
          intro hid
          simp [macsim_station_is_handoff, hf, hq, hid] at hnh
        simp only [hf, if_true, hid, if_false]
        rw [← hq] at *
        exact hscan_dup station hdup
    · simp only [hf, Bool.false_eq_true, if_false]
      exact hscan_dup station hdup
  · intro hget
    simp only [macsim_station_request2, hget]

/-- Witness for C21: the station `"S"` is registered; a handoff request of
client 2, a request of client 2 while its record is already queued, and a
request under the unregistered name `"X"`. -/
theorem macsim_station_request2_refines_witness :
    macsim_station_request2 ⟨5, 0, [], 7⟩
        [("S", ⟨"S", true, [⟨2, 1, 0, 7⟩], 0, 0, 1⟩)] "S" 2 =
      macsim_station_request ⟨5, 0, [], 7⟩
        (macsim_station_get [("S", ⟨"S", true, [⟨2, 1, 0, 7⟩], 0, 0, 1⟩)] "S") 2 ∧
    macsim_station_request2 ⟨5, 0, [], 7⟩
        [("S", ⟨"S", false, [⟨1, 0, 0, 7⟩, ⟨2, 1, 0, 7⟩], 0, 0, 0⟩)] "S" 2 =
      .error (Failure.fatal "macsim_station_request2: client already in queue") ∧
    macsim_station_request2 ⟨5, 0, [], 7⟩
        [("S", ⟨"S", false, [⟨1, 0, 0, 7⟩, ⟨2, 1, 0, 7⟩], 0, 0, 0⟩)] "X" 2 =
      .error (Failure.fatal "macsim_station_request2: unknown station") :=
  ⟨(macsim_station_request2_refines ⟨5, 0, [], 7⟩
      [("S", ⟨"S", true, [⟨2, 1, 0, 7⟩], 0, 0, 1⟩)] "S" 2).1
      ⟨"S", true, [⟨2, 1, 0, 7⟩], 0, 0, 1⟩ rfl (Or.inl rfl),
   (macsim_station_request2_refines ⟨5, 0, [], 7⟩
      [("S", ⟨"S", false, [⟨1, 0, 0, 7⟩, ⟨2, 1, 0, 7⟩], 0, 0, 0⟩)] "S" 2).2.1
      ⟨"S", false, [⟨1, 0, 0, 7⟩, ⟨2, 1, 0, 7⟩], 0, 0, 0⟩ rfl rfl
      ⟨⟨2, 1, 0, 7⟩, by simp, rfl⟩,
   (macsim_station_request2_refines ⟨5, 0, [], 7⟩
      [("S", ⟨"S", false, [⟨1, 0, 0, 7⟩, ⟨2, 1, 0, 7⟩], 0, 0, 0⟩)] "X" 2).2.2 rfl⟩

/-- C23: on a station created empty, the four calls request(1), request(2),
leave(1), leave(2) succeed and leave the reschedule flag set on an empty
queue, so the flag does not imply a non-empty queue; the head lookup of the
next request finds no record. -/
theorem macsim_station_flag_on_empty_queue :
    macsim_station_run (macsim_station_new "S") 0
        [(⟨0, 0, [], 7⟩, .request 1), (⟨1, 0, [], 7⟩, .request 2),
         (⟨5, 0, [], 8⟩, .leave 1), (⟨6, 0, [(5, ⟨2, 7⟩)], 8⟩, .leave 2)] =
      .ok (⟨"S", true, [], 11, 10, 2⟩, 2) ∧
    (⟨"S", true, [], 11, 10, 2⟩ : macsim_station_t).reschedule = true ∧
    (⟨"S", true, [], 11, 10, 2⟩ : macsim_station_t).clients = [] ∧
    macsim_station_request ⟨6, 0, [(5, ⟨2, 7⟩)], 8⟩ (some ⟨"S", true, [], 11, 10, 2⟩) 2 =
      .error Failure.null_dereference :=
  ⟨rfl, rfl, rfl, rfl⟩

theorem macsim_host_call_run_pending (k k' : Kernel) (c : macsim_host_call)
    (hd : c.delay_in_range k) (hk : pending_not_before_clock k) (hr : c.run k = .ok k') :
    pending_not_before_clock k' := by
  cases c with
  | kernel c =>
    simp only [macsim_host_call.run] at hr
    exact macsim_run_pending [c] k k'
      (by
        simp only [macsim_delays_in_range]
        refine ⟨hd, ?_⟩
        rw [hr]
        trivial)
      hk
      (by
        simp only [macsim_run]
        rw [hr])
  | request station cid =>
    simp only [macsim_host_call.run] at hr
    cases hq : macsim_station_request k station cid with
    | error e => rw [hq] at hr; cases hr
    | ok r =>
      rw [hq] at hr
      simp only [Except.ok.injEq] at hr
      exact hr ▸ hk
  | leave station cid =>
    simp only [macsim_host_call.run] at hr
    cases station with
    | none => simp [macsim_station_leave] at hr
    | some st =>
      cases hq : st.clients with
      | nil => simp [macsim_station_leave, hq] at hr
      | cons h rest =>
        rw [macsim_station_leave_cons k st cid h rest hq] at hr
        split_ifs at hr
        simp only [Except.ok.injEq] at hr
        subst hr
        cases rest with
        | nil => exact hk
        | cons n ns =>
          intro x hx
          simp only [List.mem_append, List.mem_singleton] at hx
          rcases hx with hx | rfl
          · exact hk x hx
          · exact le_refl _

theorem macsim_host_run_pending (calls : List macsim_host_call) (k k' : Kernel)
    (hd : macsim_host_delays_in_range k calls) (hk : pending_not_before_clock k)
    (hr : macsim_host_run k calls = .ok k') : pending_not_before_clock k' := by
  induction calls generalizing k with
  | nil =>
    simp only [macsim_host_run, Except.ok.injEq] at hr
    exact hr ▸ hk
  | cons c cs ih =>
    simp only [macsim_host_delays_in_range] at hd
    obtain ⟨hc, hcs⟩ := hd
    simp only [macsim_host_run] at hr
    cases hrun : c.run k with
    | error e => rw [hrun] at hr; cases hr
    | ok k1 =>
      rw [hrun] at hr hcs
      exact ih k1 hcs (macsim_host_call_run_pending k k1 c hc hk hrun) hr

/-- C24, as stated, fails: a delay that is not negative can still give a
deadline before the clock.  For `macsim_schedule(1, 1, 1e13)` on the
initialised kernel the delay `1e13` is not negative, the product `1e19` is no
`long long` value and the cast gives `LLONG_MIN`: the pending event has a
deadline before `current_time = 0` and `macsim_extract` moves the clock back to
it.  With `macsim_schedule_ns`, once the clock stands at `LLONG_MAX` the
deadline of a call with the delay 1 wraps around to `LLONG_MIN`. -/
theorem macsim_deadline_before_clock :
    (double_le (.finite 0 0) (.finite 10000000000000 0) = true ∧
     macsim_host_run macsim_init
        [.kernel (.schedule 1 1 (.finite 10000000000000 0))] =
      .ok ⟨0, 0, [(-9223372036854775808, ⟨1, 1⟩)], 0⟩ ∧
     ¬ pending_not_before_clock ⟨0, 0, [(-9223372036854775808, ⟨1, 1⟩)], 0⟩ ∧
     macsim_extract ⟨0, 0, [(-9223372036854775808, ⟨1, 1⟩)], 0⟩ =
      .ok (⟨-9223372036854775808, 0, [], 1⟩, 1, 1)) ∧
    ((0 : Int) ≤ 9223372036854775807 ∧ (0 : Int) ≤ 1 ∧
     macsim_host_run macsim_init
        [.kernel (.schedule_ns 1 1 9223372036854775807), .kernel .extract,
         .kernel (.schedule_ns 2 2 1)] =
      .ok ⟨9223372036854775807, 0, [(-9223372036854775808, ⟨2, 2⟩)], 1⟩ ∧
     ¬ pending_not_before_clock
        ⟨9223372036854775807, 0, [(-9223372036854775808, ⟨2, 2⟩)], 1⟩ ∧
     macsim_extract ⟨9223372036854775807, 0, [(-9223372036854775808, ⟨2, 2⟩)], 1⟩ =
      .ok (⟨-9223372036854775808, 0, [], 2⟩, 2, 2)) := by
  refine ⟨⟨by decide, rfl, ?_, rfl⟩, ⟨by decide, by decide, rfl, ?_, rfl⟩⟩
  · intro h
    exact absurd (h (-9223372036854775808, ⟨1, 1⟩) (List.mem_singleton.2 rfl)) (by decide)
  · intro h
    exact absurd (h (-9223372036854775808, ⟨2, 2⟩) (List.mem_singleton.2 rfl)) (by decide)

/-- C24, amended: when every delay is in range, that is the nanoseconds that a
call of `macsim_schedule_ns` or `macsim_schedule` adds to the clock, `ns` or
`(long long) (ms * 1000000)`, are not negative and `current_time + delay` does
not exceed `LLONG_MAX` (the call inside `macsim_station_leave` adds 0), then in
every kernel state reached from `macsim_init` by schedule, extract, request and
leave calls (on whatever stations the host passes) every pending event has a
deadline at or after `current_time`, and a successful `macsim_extract` does not
decrease `current_time`. -/
theorem macsim_pending_deadlines (calls : List macsim_host_call) (k : Kernel)
    (hd : macsim_host_delays_in_range macsim_init calls)
    (hr : macsim_host_run macsim_init calls = .ok k) :
    (∀ x ∈ k.event_queue, k.current_time ≤ x.1) ∧
    (∀ k' kind client_id, macsim_extract k = .ok (k', kind, client_id) →
      k.current_time ≤ k'.current_time) := by
  have hk : pending_not_before_clock k :=
    macsim_host_run_pending calls macsim_init k hd macsim_init_pending hr
  refine ⟨hk, ?_⟩
  intro k' kind client_id he
  exact (macsim_extract_pending k k' kind client_id hk he).1

/-- Witness for C24: an event scheduled 5 ns ahead and one 3 ms ahead, an
extraction, and the leave of client 1 from a queue of two, which schedules an
event for client 2 at the clock: the events left are due at 3000000 and at 5,
and the clock stands at 5. -/
theorem macsim_pending_deadlines_witness :
    macsim_host_delays_in_range macsim_init
      [.kernel (.schedule_ns 1 1 5), .kernel (.schedule 2 2 (.finite 3 0)), .kernel .extract,
       .leave (some ⟨"S", false, [⟨1, 0, 0, 7⟩, ⟨2, 0, 0, 7⟩], 0, 0, 0⟩) 1] ∧
    macsim_host_run macsim_init
        [.kernel (.schedule_ns 1 1 5), .kernel (.schedule 2 2 (.finite 3 0)), .kernel .extract,
         .leave (some ⟨"S", false, [⟨1, 0, 0, 7⟩, ⟨2, 0, 0, 7⟩], 0, 0, 0⟩) 1] =
      .ok ⟨5, 0, [(3000000, ⟨2, 2⟩), (5, ⟨2, 7⟩)], 1⟩ ∧
    (∀ x ∈ (⟨5, 0, [(3000000, ⟨2, 2⟩), (5, ⟨2, 7⟩)], 1⟩ : Kernel).event_queue,
      (⟨5, 0, [(3000000, ⟨2, 2⟩), (5, ⟨2, 7⟩)], 1⟩ : Kernel).current_time ≤ x.1) :=
  have hd : macsim_host_delays_in_range macsim_init
      [.kernel (.schedule_ns 1 1 5), .kernel (.schedule 2 2 (.finite 3 0)), .kernel .extract,
       .leave (some ⟨"S", false, [⟨1, 0, 0, 7⟩, ⟨2, 0, 0, 7⟩], 0, 0, 0⟩) 1] :=
    ⟨⟨by decide, by decide⟩, ⟨by decide, by decide⟩, trivial, trivial, trivial⟩
  ⟨hd, rfl,
   (macsim_pending_deadlines
      [.kernel (.schedule_ns 1 1 5), .kernel (.schedule 2 2 (.finite 3 0)), .kernel .extract,
       .leave (some ⟨"S", false, [⟨1, 0, 0, 7⟩, ⟨2, 0, 0, 7⟩], 0, 0, 0⟩) 1]
      ⟨5, 0, [(3000000, ⟨2, 2⟩), (5, ⟨2, 7⟩)], 1⟩ hd rfl).1⟩

theorem long_long_div_isSome (a b : Int) : (long_long_div a b).isSome = true ↔ b ≠ 0 := by
  unfold long_long_div
  split_ifs with h <;> simp [h]

theorem macsim_report_station_isSome (station : macsim_station_t) :
    (macsim_report_station station).isSome = true ↔ station.total_clients ≠ 0 := by
  unfold macsim_report_station long_long_div
  split_ifs with h <;> simp [h]

/-- The report is computed exactly when no registered station has
`total_clients` equal to zero. -/
theorem macsim_report_isSome (stations : hash_table_t) :
    (macsim_report stations).isSome = true ↔ ∀ e ∈ stations, e.2.total_clients ≠ 0 := by
  induction stations with
  | nil => simp [macsim_report]
  | cons e rest ih =>
    have h1 := macsim_report_station_isSome e.2
    simp only [macsim_report, List.mem_cons, forall_eq_or_imp]
    cases hs : macsim_report_station e.2 with
    | none =>
      rw [hs] at h1
      simp only [Option.isSome_none, Bool.false_eq_true, false_iff, not_not] at h1
      simp [h1]
    | some row =>
      rw [hs] at h1
      simp only [Option.isSome_some, true_iff] at h1
      cases hr : macsim_report rest with
      | none =>
        rw [hr] at ih
        simp only [Option.isSome_none, Bool.false_eq_true, false_iff] at ih
        simp only [Option.isSome_none, Bool.false_eq_true, false_iff, not_and]
        exact fun _ => ih
      | some rows =>
        rw [hr] at ih
        simp only [Option.isSome_some, true_iff] at ih
        simp only [Option.isSome_some, true_iff]
        exact ⟨h1, ih⟩

/-- C25: the report divides by `total_clients` without a test.  Right after
`macsim_station_create("S")` on the empty table the station has
`total_clients = 0` and `macsim_report` divides by zero; the same holds after
`macsim_reset_statistics` on a table whose station had served two clients, and
in general the report is computed only when no registered station has
`total_clients = 0`. -/
theorem macsim_report_divides_by_zero :
    (macsim_station_create [] "S").1 = some (macsim_station_new "S") ∧
    macsim_station_get (macsim_station_create [] "S").2 "S" = some (macsim_station_new "S") ∧
    (macsim_station_new "S").total_clients = 0 ∧
    macsim_report (macsim_station_create [] "S").2 = none ∧
    macsim_report [("S", ⟨"S", false, [], 11, 10, 2⟩)] = some [("S", 5, 5, 0)] ∧
    macsim_report (macsim_reset_statistics ⟨6, 0, [], 8⟩
      [("S", ⟨"S", false, [], 11, 10, 2⟩)]).2 = none ∧
    (∀ stations : hash_table_t,
      (macsim_report stations).isSome = true ↔ ∀ e ∈ stations, e.2.total_clients ≠ 0) :=
  ⟨rfl, rfl, rfl, rfl, rfl, rfl, macsim_report_isSome⟩

/-! ## The sample variance of the batch means (batch-means.c) -/

theorem observaciones_in_batch {α : Type} [LinearOrderedField α] (sqrt log : α → α)
    (xs : List α) (s : batch_means_t α) (ht : s.transitorio = 0)
    (hlt : s.obs + (xs.length : Int) < s.batch) :
    (observaciones sqrt log s xs).2 =
      { s with suma := s.suma + xs.sum, obs := s.obs + (xs.length : Int) } := by
  induction xs generalizing s with
  | nil => simp [observaciones]
  | cons x xs ih =>
    simp only [List.length_cons, Nat.cast_add, Nat.cast_one] at hlt
    have hne : ¬ (s.obs + 1 = s.batch) := by omega
    have hstep : observacion sqrt log s x =
        (0, { s with suma := s.suma + x, obs := s.obs + 1 }) := by
      simp only [observacion, ht, ne_eq, not_true_eq_false, if_false, hne]
    simp only [observaciones, hstep]
    have e := ih { s with suma := s.suma + x, obs := s.obs + 1 } ht
      (by show s.obs + 1 + (xs.length : Int) < s.batch; omega)
    rw [e]
    simp only [List.sum_cons, List.length_cons, Nat.cast_add, Nat.cast_one]
    congr 1
    · omega
    · ring

theorem observacion_close {α : Type} [LinearOrderedField α] (sqrt log : α → α)
    (s : batch_means_t α) (valor : α) (ht : s.transitorio = 0) (he : s.obs + 1 = s.batch) :
    (observacion sqrt log s valor).2.transitorio = 0 ∧
    (observacion sqrt log s valor).2.batch = s.batch ∧
    (observacion sqrt log s valor).2.obs = 0 ∧
    (observacion sqrt log s valor).2.suma = 0 ∧
    (observacion sqrt log s valor).2.num_batches = s.num_batches + 1 ∧
    (observacion sqrt log s valor).2.gransuma =
      s.gransuma + (s.suma + valor) / ((s.obs + 1 : Int) : α) ∧
    (observacion sqrt log s valor).2.gransuma2 =
      s.gransuma2 + (s.suma + valor) / ((s.obs + 1 : Int) : α) *
        ((s.suma + valor) / ((s.obs + 1 : Int) : α)) ∧
    (observacion sqrt log s valor).2.nivel = s.nivel ∧
    (10 ≤ s.num_batches + 1 →
      (observacion sqrt log s valor).2.granmedia =
        (observacion sqrt log s valor).2.gransuma /
          (((observacion sqrt log s valor).2.num_batches : Int) : α) ∧
      (observacion sqrt log s valor).2.h =
        T sqrt log ((1 - (observacion sqrt log s valor).2.nivel) / 2.0)
            ((observacion sqrt log s valor).2.num_batches - 1) *
          sqrt (observacion_var (observacion sqrt log s valor).2 /
            (((observacion sqrt log s valor).2.num_batches : Int) : α))) := by
  by_cases hq : s.num_batches + 1 ≥ 10
  · simp only [observacion, ht, ne_eq, not_true_eq_false, if_false, he, if_true, hq,
      observacion_var, true_and, and_self, implies_true]
  · simp only [observacion, ht, ne_eq, not_true_eq_false, if_false, he, if_true, hq,
      true_and]
    intro h
    exact h.elim


theorem observaciones_whole_batch {α : Type} [LinearOrderedField α] (sqrt log : α → α)
    (s : batch_means_t α) (xs : List α) (b : Nat) (hb : 1 ≤ b) (ht : s.transitorio = 0)
    (hbt : s.batch = b) (ho : s.obs = 0) (hs : s.suma = 0) (hl : xs.length = b) :
    (observaciones sqrt log s xs).2.transitorio = 0 ∧
    (observaciones sqrt log s xs).2.batch = b ∧
    (observaciones sqrt log s xs).2.obs = 0 ∧
    (observaciones sqrt log s xs).2.suma = 0 ∧
    (observaciones sqrt log s xs).2.num_batches = s.num_batches + 1 ∧
    (observaciones sqrt log s xs).2.gransuma = s.gransuma + xs.sum / (xs.length : α) ∧
    (observaciones sqrt log s xs).2.gransuma2 =
      s.gransuma2 + xs.sum / (xs.length : α) * (xs.sum / (xs.length : α)) ∧
    (observaciones sqrt log s xs).2.nivel = s.nivel ∧
    (10 ≤ s.num_batches + 1 →
      (observaciones sqrt log s xs).2.granmedia =
        (observaciones sqrt log s xs).2.gransuma /
          (((observaciones sqrt log s xs).2.num_batches : Int) : α) ∧
      (observaciones sqrt log s xs).2.h =
        T sqrt log ((1 - (observaciones sqrt log s xs).2.nivel) / 2.0)
            ((observaciones sqrt log s xs).2.num_batches - 1) *
          sqrt (observacion_var (observaciones sqrt log s xs).2 /
            (((observaciones sqrt log s xs).2.num_batches : Int) : α))) := by
  have hne : xs ≠ [] := by
    intro h
    rw [h] at hl
    simp only [List.length_nil] at hl
    omega
  obtain ⟨init, x, rfl⟩ : ∃ init x, xs = init ++ [x] :=
    ⟨xs.dropLast, xs.getLast hne, (List.dropLast_append_getLast hne).symm⟩
  simp only [List.length_append, List.length_singleton] at hl
  have hin := observaciones_in_batch sqrt log init s ht
    (by rw [ho, hbt, ← hl]; push_cast; omega)
  have hrun : (observaciones sqrt log s (init ++ [x])).2 =
      (observacion sqrt log
        { s with suma := s.suma + init.sum, obs := s.obs + (init.length : Int) } x).2 := by
    rw [observaciones_append]
    simp only [observaciones]
    rw [hin]
  have hc := observacion_close sqrt log
    { s with suma := s.suma + init.sum, obs := s.obs + (init.length : Int) } x ht
    (by show s.obs + (init.length : Int) + 1 = s.batch; rw [ho, hbt, ← hl]; push_cast; omega)
  rw [hrun]
  have hm : (s.suma + init.sum + x) / (((s.obs + (init.length : Int) + 1 : Int)) : α) =
      (init ++ [x]).sum / (((init ++ [x]).length : Nat) : α) := by
    rw [hs, ho]
    simp only [List.sum_append, List.sum_singleton, List.length_append, List.length_singleton]
    push_cast
    ring
  obtain ⟨h1, h2, h3, h4, h5, h6, h7, h8, h9⟩ := hc
  simp only [hm] at h6 h7
  exact ⟨h1, by rw [h2]; exact hbt, h3, h4, h5, h6, h7, h8, h9⟩

theorem sum_sq_dev {α : Type} [LinearOrderedField α] (ms : List α) (μ : α) :
    (ms.map (fun m => (m - μ) ^ 2)).sum =
      (ms.map (fun m => m * m)).sum - 2 * μ * ms.sum + (ms.length : α) * μ ^ 2 := by
  induction ms with
  | nil => simp
  | cons m ms ih =>
    simp only [List.map_cons, List.sum_cons, List.length_cons, Nat.cast_add, Nat.cast_one]
    rw [ih]
    ring

theorem sum_sq_dev_nonneg {α : Type} [LinearOrderedField α] (ms : List α) (μ : α) :
    0 ≤ (ms.map (fun m => (m - μ) ^ 2)).sum := by
  apply List.sum_nonneg
  intro x hx
  simp only [List.mem_map] at hx
  obtain ⟨m, _, rfl⟩ := hx
  positivity

theorem observacion_var_eq_spec {α : Type} [LinearOrderedField α] (s : batch_means_t α)
    (ms : List α) (hK : 2 ≤ ms.length) (hn : s.num_batches = ms.length)
    (hg2 : s.gransuma2 = (ms.map (fun m => m * m)).sum)
    (hg : s.granmedia = grand_mean_spec ms) :
    observacion_var s = sample_variance_spec ms := by
  have hK0 : (ms.length : α) ≠ 0 := by
    have : (0 : α) < (ms.length : α) := by exact_mod_cast (by omega : 0 < ms.length)
    exact ne_of_gt this
  have hsum : ms.sum = (ms.length : α) * grand_mean_spec ms := by
    unfold grand_mean_spec
    field_simp
  unfold observacion_var sample_variance_spec
  rw [sum_sq_dev, hn, hg2, hg]
  have e1 : (((ms.length : Int) - 1 : Int) : α) = (ms.length : α) - 1 := by push_cast; ring
  rw [e1]
  congr 1
  have e2 : (((ms.length : Nat) : Int) : α) = (ms.length : α) := by push_cast; ring
  rw [e2]
  rw [hsum]
  ring

theorem sample_variance_spec_nonneg {α : Type} [LinearOrderedField α] (ms : List α)
    (hK : 2 ≤ ms.length) : 0 ≤ sample_variance_spec ms := by
  unfold sample_variance_spec
  apply div_nonneg (sum_sq_dev_nonneg ms _)
  have : (2 : α) ≤ (ms.length : α) := by exact_mod_cast hK
  linarith


theorem observaciones_batches {α : Type} [LinearOrderedField α] (sqrt log : α → α)
    (b : Nat) (hb : 1 ≤ b) (batches : List (List α)) (hlen : ∀ xs ∈ batches, xs.length = b)
    (s : batch_means_t α) (ht : s.transitorio = 0) (hbt : s.batch = b) (ho : s.obs = 0)
    (hs : s.suma = 0) (hq : s.num_batches = 0) (hg : s.gransuma = 0) (hg2 : s.gransuma2 = 0) :
    (observaciones sqrt log s batches.flatten).2.transitorio = 0 ∧
    (observaciones sqrt log s batches.flatten).2.batch = b ∧
    (observaciones sqrt log s batches.flatten).2.obs = 0 ∧
    (observaciones sqrt log s batches.flatten).2.suma = 0 ∧
    (observaciones sqrt log s batches.flatten).2.num_batches = batches.length ∧
    (observaciones sqrt log s batches.flatten).2.gransuma = (batch_means_spec batches).sum ∧
    (observaciones sqrt log s batches.flatten).2.gransuma2 =
      ((batch_means_spec batches).map (fun m => m * m)).sum ∧
    (observaciones sqrt log s batches.flatten).2.nivel = s.nivel ∧
    (10 ≤ batches.length →
      (observaciones sqrt log s batches.flatten).2.granmedia =
        (observaciones sqrt log s batches.flatten).2.gransuma /
          (((observaciones sqrt log s batches.flatten).2.num_batches : Int) : α) ∧
      (observaciones sqrt log s batches.flatten).2.h =
        T sqrt log ((1 - (observaciones sqrt log s batches.flatten).2.nivel) / 2.0)
            ((observaciones sqrt log s batches.flatten).2.num_batches - 1) *
          sqrt (observacion_var (observaciones sqrt log s batches.flatten).2 /
            (((observaciones sqrt log s batches.flatten).2.num_batches : Int) : α))) := by
  induction batches using List.reverseRecOn with
  | nil =>
    simp only [List.flatten_nil, observaciones, batch_means_spec, List.map_nil, List.sum_nil,
      List.length_nil, Nat.cast_zero]
    exact ⟨ht, hbt, ho, hs, hq, hg, hg2, trivial, fun h => absurd h (by decide)⟩
  | append_singleton bs xs ih =>
    obtain ⟨i1, i2, i3, i4, i5, i6, i7, i8, _⟩ :=
      ih (fun ys hys => hlen ys (List.mem_append_left _ hys))
    have hxs : xs.length = b := hlen xs (by simp)
    have hw := observaciones_whole_batch sqrt log (observaciones sqrt log s bs.flatten).2 xs b hb
      i1 i2 i3 i4 hxs
    have hj : (bs ++ [xs]).flatten = bs.flatten ++ xs := by simp
    have hrun : (observaciones sqrt log s (bs ++ [xs]).flatten).2 =
        (observaciones sqrt log (observaciones sqrt log s bs.flatten).2 xs).2 := by
      rw [hj, observaciones_append]
    rw [hrun]
    obtain ⟨w1, w2, w3, w4, w5, w6, w7, w8, w9⟩ := hw
    refine ⟨w1, w2, w3, w4, ?_, ?_, ?_, ?_, ?_⟩
    · rw [w5, i5]
      simp only [List.length_append, List.length_singleton]
      push_cast
      ring
    · rw [w6, i6]
      simp only [batch_means_spec, List.map_append, List.map_cons, List.map_nil,
        List.sum_append, List.sum_cons, List.sum_nil, add_zero]
    · rw [w7, i7]
      simp only [batch_means_spec, List.map_append, List.map_cons, List.map_nil,
        List.sum_append, List.sum_cons, List.sum_nil, add_zero]
    · rw [w8, i8]
    · intro h
      apply w9
      rw [i5]
      simp only [List.length_append, List.length_singleton] at h
      omega


/-- C22: after a transient of `t` values and `K >= 10` complete batches of `b`
values each, fed to `observacion` from the variables that
`batch_mean(t, b, prec, nivel)` sets, the batch count is `K`, the grand mean is
the mean of the `K` batch means, the value the code computes for `var`,
`(gransuma2 - K * granmedia^2) / (K - 1)`, is the unbiased sample variance of
the batch means and is not negative, and the stored half-width is the `T`
factor times the square root of that value over `K`. -/
theorem observacion_sample_variance {α : Type} [LinearOrderedField α] (sqrt log : α → α)
    (s0 : batch_means_t α) (t b : Nat) (prec nivel : α) (trans : List α)
    (batches : List (List α)) (hb : 1 ≤ b) (ht : trans.length = t)
    (hlen : ∀ xs ∈ batches, xs.length = b) (hK : 10 ≤ batches.length) :
    (observaciones sqrt log (batch_mean s0 t b prec nivel) (trans ++ batches.flatten)).2.num_batches =
      (batches.length : Int) ∧
    (observaciones sqrt log (batch_mean s0 t b prec nivel) (trans ++ batches.flatten)).2.granmedia =
      grand_mean_spec (batch_means_spec batches) ∧
    observacion_var
        (observaciones sqrt log (batch_mean s0 t b prec nivel) (trans ++ batches.flatten)).2 =
      sample_variance_spec (batch_means_spec batches) ∧
    0 ≤ observacion_var
        (observaciones sqrt log (batch_mean s0 t b prec nivel) (trans ++ batches.flatten)).2 ∧
    (observaciones sqrt log (batch_mean s0 t b prec nivel) (trans ++ batches.flatten)).2.h =
      T sqrt log ((1 - nivel) / 2.0) ((batches.length : Int) - 1) *
        sqrt (sample_variance_spec (batch_means_spec batches) /
          (((batches.length : Nat) : Int) : α)) := by
  have h1 : observaciones sqrt log (batch_mean s0 t b prec nivel) trans =
      (List.replicate t 0, batch_mean s0 0 b prec nivel) := by
    rw [observaciones_transient sqrt log _ trans (by simp [batch_mean, ht]), ht]
    simp [batch_mean]
  have hrun : (observaciones sqrt log (batch_mean s0 t b prec nivel) (trans ++ batches.flatten)).2 =
      (observaciones sqrt log (batch_mean s0 0 b prec nivel) batches.flatten).2 := by
    rw [observaciones_append, h1]
  rw [hrun]
  obtain ⟨_, _, _, _, r5, r6, r7, r8, r9⟩ :=
    observaciones_batches sqrt log b hb batches hlen (batch_mean s0 0 b prec nivel)
      rfl rfl rfl rfl rfl rfl rfl
  obtain ⟨r10, r11⟩ := r9 hK
  have hml : (batch_means_spec batches).length = batches.length := by
    simp [batch_means_spec]
  have hgm : (observaciones sqrt log (batch_mean s0 0 b prec nivel) batches.flatten).2.granmedia =
      grand_mean_spec (batch_means_spec batches) := by
    rw [r10, r6, r5]
    unfold grand_mean_spec
    rw [hml]
    push_cast
    rfl
  have hvar := observacion_var_eq_spec
    (observaciones sqrt log (batch_mean s0 0 b prec nivel) batches.flatten).2
    (batch_means_spec batches) (by rw [hml]; omega) (by rw [r5, hml]) r7 hgm
  refine ⟨r5, hgm, hvar, ?_, ?_⟩
  · rw [hvar]
    exact sample_variance_spec_nonneg _ (by rw [hml]; omega)
  · rw [r11, hvar, r8, r5]
    rfl

/-- Witness for C22: a transient of two values, then ten batches of one value
each, the values 1 to 10. -/
theorem observacion_sample_variance_witness :
    (observaciones Real.sqrt Real.log
        (batch_mean (batch_means_zero : batch_means_t ℝ) (2 : Nat) (1 : Nat) (1 / 100) (95 / 100))
        ([0, 0] ++ List.flatten [[1], [2], [3], [4], [5], [6], [7], [8], [9], [10]])).2.granmedia =
      grand_mean_spec (batch_means_spec
        [[1], [2], [3], [4], [5], [6], [7], [8], [9], [(10 : ℝ)]]) ∧
    observacion_var
      (observaciones Real.sqrt Real.log
        (batch_mean (batch_means_zero : batch_means_t ℝ) (2 : Nat) (1 : Nat) (1 / 100) (95 / 100))
        ([0, 0] ++ List.flatten [[1], [2], [3], [4], [5], [6], [7], [8], [9], [10]])).2 =
      sample_variance_spec (batch_means_spec
        [[1], [2], [3], [4], [5], [6], [7], [8], [9], [(10 : ℝ)]]) ∧
    0 ≤ observacion_var
      (observaciones Real.sqrt Real.log
        (batch_mean (batch_means_zero : batch_means_t ℝ) (2 : Nat) (1 : Nat) (1 / 100) (95 / 100))
        ([0, 0] ++ List.flatten [[1], [2], [3], [4], [5], [6], [7], [8], [9], [10]])).2 :=
  have w := observacion_sample_variance Real.sqrt Real.log (batch_means_zero : batch_means_t ℝ)
    2 1 (1 / 100) (95 / 100) [0, 0] [[1], [2], [3], [4], [5], [6], [7], [8], [9], [10]]
    (by decide) rfl (by simp) (by simp)
  ⟨w.2.1, w.2.2.1, w.2.2.2.1⟩

/-! ## The sign of the half-width (batch-means.c) -/

end Macsim
